import Mathlib

/-!
Verification development for the `cline-batch-executor` VS Code extension.

JavaScript/TypeScript strings are modelled as `List Char`; JavaScript
`number` values reaching integer comparisons are modelled as `Int`
(with `Option Int` standing for a possibly-`NaN` result of `parseInt`).
Each definition mirrors one function of the source; the file is organised
source-file by source-file, with the theorems at the end.
-/

namespace ClineBatch

/-! ### JavaScript string primitives used by the source

`jsIsWs` models the whitespace class relevant to `String.prototype.trim`
(the source only ever produces ASCII whitespace). -/

def jsIsWs (c : Char) : Bool :=
  decide (c = ' ' ∨ c = '\t' ∨ c = '\n' ∨ c = '\r')

/-- Model of `String.prototype.trim`: drop whitespace at both ends. -/
def jsTrim (s : List Char) : List Char :=
  ((s.dropWhile jsIsWs).reverse.dropWhile jsIsWs).reverse

/-- Helper for the splitter: prepend a character to the first segment. -/
def consHead (c : Char) : List (List Char) → List (List Char)
  | [] => [[c]]
  | seg :: segs => (c :: seg) :: segs

/-- Fuel-driven worker for `splitOnSub`.  The fuel is only a termination
device; `splitOnSub` always supplies enough of it. -/
def splitGo (sep : List Char) : Nat → List Char → List (List Char)
  | 0, s => [s]
  | _ + 1, [] => [[]]
  | fuel + 1, c :: rest =>
    if !sep.isEmpty && sep.isPrefixOf (c :: rest) then
      [] :: splitGo sep fuel ((c :: rest).drop sep.length)
    else
      consHead c (splitGo sep fuel rest)

/-- Model of `String.prototype.split(sep)` for a non-empty separator:
non-overlapping, left-to-right splitting on every occurrence of `sep`.
(The source only splits on the literal separators `"&&"`, `">="`, `"<="`,
`">"`, `"<"`, `"=="`, all non-empty.) -/
def splitOnSub (sep s : List Char) : List (List Char) :=
  splitGo sep (s.length + 1) s

/-- Model of `String.prototype.includes(sep)` (substring test). -/
def containsSub (sep : List Char) : List Char → Bool
  | [] => sep.isEmpty
  | c :: rest => sep.isPrefixOf (c :: rest) || containsSub sep rest

/-- Decimal digit test, as scanned by `parseInt`. -/
def isDigitCh (c : Char) : Bool :=
  decide (48 ≤ c.toNat ∧ c.toNat ≤ 57)

/-- Numeric value of the leading run of decimal digits; `none` when the
run is empty (`parseInt` returns `NaN` there). -/
def parseDigits (s : List Char) : Option Nat :=
  let ds := s.takeWhile isDigitCh
  if ds = [] then none
  else some (ds.foldl (fun a c => 10 * a + (c.toNat - 48)) 0)

/-- Model of JavaScript `parseInt(s)` restricted to decimal notation:
skip leading whitespace, read an optional sign, then the longest leading
digit run; `none` models `NaN`.  (The radix-prefix forms such as `0x…`
are not modelled; the source never relies on them.) -/
def jsParseInt (s : List Char) : Option Int :=
  if (s.dropWhile jsIsWs).head? = some '-' then
    (parseDigits (s.dropWhile jsIsWs).tail).map (fun (n : Nat) => -(n : Int))
  else if (s.dropWhile jsIsWs).head? = some '+' then
    (parseDigits (s.dropWhile jsIsWs).tail).map (fun (n : Nat) => (n : Int))
  else (parseDigits (s.dropWhile jsIsWs)).map (fun (n : Nat) => (n : Int))

/-! JavaScript numeric comparisons against a possibly-`NaN` operand:
every ordering comparison with `NaN` is `false`, and `x !== NaN` is
`true`. -/

def jsLt (x : Int) : Option Int → Bool
  | some n => decide (x < n)
  | none => false

def jsGt (x : Int) : Option Int → Bool
  | some n => decide (n < x)
  | none => false

def jsLe (x : Int) : Option Int → Bool
  | some n => decide (x ≤ n)
  | none => false

def jsGe (x : Int) : Option Int → Bool
  | some n => decide (n ≤ x)
  | none => false

def jsNeq (x : Int) : Option Int → Bool
  | some n => decide (x ≠ n)
  | none => true

/-! ### Data model (`src/interfaces.ts`, reconstructed from its uses)

The interface file itself is not part of the provided sources; the field
set below is exactly the set of fields read and written by
`batchProcessor.ts`, `hookManager.ts` and `dashboard.ts`.  Counters are
natural numbers, timestamps are `Date.now()` millisecond values. -/

structure BatchProcessingStats where
  totalFiles : Nat
  processedFiles : Nat
  successfulFiles : Nat
  failedFiles : Nat
  modifiedFiles : Nat
  errorCount : Nat
  startTime : Nat
  endTime : Option Nat := none
  deriving DecidableEq, Repr

/-- Lifecycle points of `HookConfig.runAt`. -/
inductive HookPoint where
  | beforeBatch | afterBatch | beforeFile | afterFile | onError
  deriving DecidableEq, Repr

/-- Hook definition (`HookConfig`), as consumed by `hookManager.ts`.
The command text is kept only as data; its execution effect is external. -/
structure HookConfig where
  name : List Char
  condition : List Char
  command : List Char
  runAt : HookPoint

/-! ### ConditionEvaluator (`src/hookManager.ts`) -/

/-- `getVariableValue` of `hookManager.ts` (lines 98–115): look up one of
the six statistics fields by name, any other name resolves to `0`. -/
def getVariableValue (varName : List Char) (stats : BatchProcessingStats) : Int :=
  if varName = "totalFiles".data then stats.totalFiles
  else if varName = "processedFiles".data then stats.processedFiles
  else if varName = "successfulFiles".data then stats.successfulFiles
  else if varName = "failedFiles".data then stats.failedFiles
  else if varName = "modifiedFiles".data then stats.modifiedFiles
  else if varName = "errorCount".data then stats.errorCount
  else 0

def geStr : List Char := ['>', '=']
def leStr : List Char := ['<', '=']
def gtStr : List Char := ['>']
def ltStr : List Char := ['<']
def eqStr : List Char := ['=', '=']
def andStr : List Char := ['&', '&']

/-- One iteration of the clause loop of `evaluateCondition`
(`hookManager.ts` lines 66–88): the operators are tried in the source's
priority order `>=`, `<=`, `>`, `<`, `==`; the branch taken splits the
clause on the operator, trims both parts, and compares the variable value
with `parseInt` of the literal exactly as the source's guard does; a
clause containing none of the five operators falls through the
`if`/`else if` chain and the loop continues, i.e. the clause passes. -/
def clausePasses (cond : List Char) (stats : BatchProcessingStats) : Bool :=
  if containsSub geStr cond then
    let parts := (splitOnSub geStr cond).map jsTrim
    !(jsLt (getVariableValue (parts.getD 0 []) stats) (jsParseInt (parts.getD 1 [])))
  else if containsSub leStr cond then
    let parts := (splitOnSub leStr cond).map jsTrim
    !(jsGt (getVariableValue (parts.getD 0 []) stats) (jsParseInt (parts.getD 1 [])))
  else if containsSub gtStr cond then
    let parts := (splitOnSub gtStr cond).map jsTrim
    !(jsLe (getVariableValue (parts.getD 0 []) stats) (jsParseInt (parts.getD 1 [])))
  else if containsSub ltStr cond then
    let parts := (splitOnSub ltStr cond).map jsTrim
    !(jsGe (getVariableValue (parts.getD 0 []) stats) (jsParseInt (parts.getD 1 [])))
  else if containsSub eqStr cond then
    let parts := (splitOnSub eqStr cond).map jsTrim
    !(jsNeq (getVariableValue (parts.getD 0 []) stats) (jsParseInt (parts.getD 1 [])))
  else true

/-- `evaluateCondition` of `hookManager.ts` (lines 57–95).  An empty or
whitespace-only condition is `true`; otherwise the condition is split on
`&&`, each clause is trimmed, and the loop returns `false` on the first
failing clause, which is the same as requiring every clause to pass.
Every operation in the source's `try` block is total (`split`, `trim`,
`includes`, `parseInt` never throw), so the `catch` branch is dead code
and the function is modelled as a total function. -/
def evaluateCondition (condition : List Char) (stats : BatchProcessingStats) : Bool :=
  if jsTrim condition = [] then true
  else ((splitOnSub andStr condition).map jsTrim).all (fun c => clausePasses c stats)

/-! ### Decimal numerals

`natChars`/`intChars` render an integer the way a well-formed condition
clause writes its literal; they are the test-harness side of claim C4
(the code side is `jsParseInt` above). -/

/-- The decimal digit character for `d < 10`. -/
def digitCh : Nat → Char
  | 0 => '0' | 1 => '1' | 2 => '2' | 3 => '3' | 4 => '4'
  | 5 => '5' | 6 => '6' | 7 => '7' | 8 => '8' | 9 => '9'
  | _ => '*'

/-- Fuel-driven most-significant-first digit accumulator. -/
def natCharsGo : Nat → Nat → List Char → List Char
  | 0, _, acc => acc
  | fuel + 1, n, acc =>
    if n = 0 then acc else natCharsGo fuel (n / 10) (digitCh (n % 10) :: acc)

/-- Decimal rendering of a natural number. -/
def natChars (n : Nat) : List Char :=
  if n = 0 then ['0'] else natCharsGo (n + 1) n []

/-- Decimal rendering of an integer (optional leading minus sign). -/
def intChars (n : Int) : List Char :=
  if n < 0 then '-' :: natChars (-n).toNat else natChars n.toNat

/-! ### Structured well-formed clauses (claim C4's quantification domain) -/

/-- The five comparison operators of the condition grammar. -/
inductive CompOp where
  | ge | le | gt | lt | eq
  deriving DecidableEq, Repr

def opChars : CompOp → List Char
  | .ge => geStr
  | .le => leStr
  | .gt => gtStr
  | .lt => ltStr
  | .eq => eqStr

/-- The integer comparison an operator denotes. -/
def opDenote : CompOp → Int → Int → Bool
  | .ge, x, n => decide (n ≤ x)
  | .le, x, n => decide (x ≤ n)
  | .gt, x, n => decide (n < x)
  | .lt, x, n => decide (x < n)
  | .eq, x, n => decide (x = n)

/-- A structured well-formed clause `<variable> <op> <integer>`. -/
structure ClauseSpec where
  var : List Char
  op : CompOp
  num : Int

/-- A variable name that cannot interfere with the splitting logic:
non-empty, and free of operator characters, of `&`, and of whitespace.
All six statistics field names satisfy this. -/
def goodVar (v : List Char) : Prop :=
  v ≠ [] ∧ ∀ ch ∈ v,
    ch ≠ '>' ∧ ch ≠ '<' ∧ ch ≠ '=' ∧ ch ≠ '&' ∧ jsIsWs ch = false

instance (v : List Char) : Decidable (goodVar v) := by
  unfold goodVar; infer_instance

/-- Text of one well-formed clause: `var ⟨space⟩ op ⟨space⟩ number`. -/
def renderClause (c : ClauseSpec) : List Char :=
  c.var ++ ' ' :: (opChars c.op ++ ' ' :: intChars c.num)

/-- Text of a conjunction of clauses joined by ` && `. -/
def renderCond : List ClauseSpec → List Char
  | [] => []
  | [c] => renderClause c
  | c :: cs => renderClause c ++ ' ' :: '&' :: '&' :: ' ' :: renderCond cs

/-- Truth value claim C4 predicts for one clause. -/
def clauseHolds (c : ClauseSpec) (stats : BatchProcessingStats) : Bool :=
  opDenote c.op (getVariableValue c.var stats) c.num

/-! ### Lemmas about `jsTrim` -/

lemma mem_of_head? {l : List Char} {c : Char} (h : l.head? = some c) : c ∈ l := by
  cases l <;> simp_all

lemma dropWhile_eq_self_of_head {p : Char → Bool} {l : List Char}
    (h : ∀ c, l.head? = some c → p c = false) : l.dropWhile p = l := by
  cases l with
  | nil => rfl
  | cons c rest => simp [List.dropWhile, h c rfl]

lemma jsTrim_eq_self_of {l : List Char}
    (h1 : ∀ c, l.head? = some c → jsIsWs c = false)
    (h2 : ∀ c, l.reverse.head? = some c → jsIsWs c = false) : jsTrim l = l := by
  unfold jsTrim
  rw [dropWhile_eq_self_of_head h1, dropWhile_eq_self_of_head h2, List.reverse_reverse]

lemma jsTrim_eq_self_of_all {l : List Char} (h : ∀ c ∈ l, jsIsWs c = false) :
    jsTrim l = l :=
  jsTrim_eq_self_of (fun c hc => h c (mem_of_head? hc))
    (fun c hc => h c (by simpa using mem_of_head? hc))

lemma jsTrim_cons_ws {c : Char} {l : List Char} (h : jsIsWs c = true) :
    jsTrim (c :: l) = jsTrim l := by
  unfold jsTrim
  rw [List.dropWhile_cons, if_pos h]

lemma dropWhile_append_eq {p : Char → Bool} (l₁ l₂ : List Char) :
    (l₁ ++ l₂).dropWhile p =
      if l₁.dropWhile p = [] then l₂.dropWhile p else l₁.dropWhile p ++ l₂ := by
  induction l₁ with
  | nil => simp
  | cons c rest ih =>
    by_cases h : p c = true
    · simpa [List.dropWhile_cons, h] using ih
    · simp [List.dropWhile_cons, h]

lemma jsTrim_concat_ws {c : Char} {l : List Char} (h : jsIsWs c = true) :
    jsTrim (l ++ [c]) = jsTrim l := by
  unfold jsTrim
  rw [dropWhile_append_eq]
  by_cases h0 : l.dropWhile jsIsWs = []
  · simp [h0, List.dropWhile_cons, h]
  · rw [if_neg h0]
    simp [List.reverse_append, List.dropWhile_cons, h]

lemma jsTrim_eq_nil_imp {l : List Char} (h : jsTrim l = []) :
    ∀ c ∈ l, jsIsWs c = true := by
  unfold jsTrim at h
  rw [List.reverse_eq_nil_iff, List.dropWhile_eq_nil_iff] at h
  intro c hc
  rw [← List.takeWhile_append_dropWhile (p := jsIsWs) (l := l)] at hc
  rcases List.mem_append.mp hc with hc | hc
  · exact List.mem_takeWhile_imp hc
  · exact h c (by simpa using hc)

lemma jsTrim_ne_nil {l : List Char} {c : Char} (hc : c ∈ l) (h : jsIsWs c = false) :
    jsTrim l ≠ [] := by
  intro hnil
  rw [jsTrim_eq_nil_imp hnil c hc] at h
  exact absurd h (by simp)

/-! ### Lemmas about `containsSub` and `splitOnSub` -/

lemma containsSub_append (sep a b : List Char) :
    containsSub sep (a ++ (sep ++ b)) = true := by
  induction a with
  | nil =>
    have hp : sep.isPrefixOf (sep ++ b) = true :=
      List.isPrefixOf_iff_prefix.mpr (List.prefix_append _ _)
    cases h : sep ++ b with
    | nil =>
      have hsep : sep = [] := (List.append_eq_nil.mp h).1
      simp [containsSub, hsep]
    | cons c rest =>
      rw [List.nil_append]
      rw [h] at hp
      simp [containsSub, hp]
  | cons x a ih =>
    simp [List.cons_append, containsSub, ih]

lemma containsSub_eq_false_of_missing {ch : Char} {sep s : List Char}
    (hch : ch ∈ sep) (hs : ch ∉ s) : containsSub sep s = false := by
  induction s with
  | nil =>
    cases sep with
    | nil => simp at hch
    | cons _ _ => simp [containsSub]
  | cons c rest ih =>
    have h1 : sep.isPrefixOf (c :: rest) = false := by
      by_contra hx
      have hpre : sep <+: c :: rest := by
        rw [← List.isPrefixOf_iff_prefix]
        revert hx
        cases sep.isPrefixOf (c :: rest) <;> simp
      exact hs (hpre.subset hch)
    have h2 : ch ∉ rest := fun h => hs (List.mem_cons_of_mem _ h)
    simp [containsSub, h1, ih h2]

lemma splitGo_all_missing {sep : List Char} (hsep : sep ≠ []) :
    ∀ fuel s, s.length < fuel → (∀ ch ∈ sep, ch ∉ s) → splitGo sep fuel s = [s] := by
  intro fuel
  induction fuel with
  | zero => intro s h _; omega
  | succ f ih =>
    intro s hlen h
    cases s with
    | nil => simp [splitGo]
    | cons c rest =>
      obtain ⟨s₀, srest, rfl⟩ : ∃ s₀ srest, sep = s₀ :: srest := by
        cases sep with
        | nil => exact absurd rfl hsep
        | cons a b => exact ⟨a, b, rfl⟩
      have hne : (s₀ == c) = false := by
        have : s₀ ≠ c := fun he => (h s₀ (by simp)) (by simp [he])
        simp [this]
      have hpre : (s₀ :: srest).isPrefixOf (c :: rest) = false := by
        simp [List.isPrefixOf, hne]
      rw [splitGo, if_neg (by simp [hpre])]
      rw [ih rest (by simp at hlen; omega)
        (fun ch hch hm => h ch hch (List.mem_cons_of_mem _ hm))]
      rfl

lemma splitOnSub_eq_single {sep s : List Char} (hsep : sep ≠ [])
    (h : ∀ ch ∈ sep, ch ∉ s) : splitOnSub sep s = [s] :=
  splitGo_all_missing hsep _ s (by omega) h

lemma splitGo_congr (sep : List Char) :
    ∀ f₁ f₂ s, s.length < f₁ → s.length < f₂ →
      splitGo sep f₁ s = splitGo sep f₂ s := by
  intro f₁
  induction f₁ with
  | zero => intro f₂ s h _; omega
  | succ f ih =>
    intro f₂ s h1 h2
    cases f₂ with
    | zero => omega
    | succ f' =>
      cases s with
      | nil => simp [splitGo]
      | cons c rest =>
        rw [splitGo, splitGo]
        by_cases hc : (!sep.isEmpty && sep.isPrefixOf (c :: rest)) = true
        · rw [if_pos hc, if_pos hc]
          have hsep : 1 ≤ sep.length := by
            cases sep with
            | nil => simp at hc
            | cons _ _ => simp
          have hlen : ((c :: rest).drop sep.length).length < f := by
            simp only [List.length_drop, List.length_cons] at *
            omega
          have hlen' : ((c :: rest).drop sep.length).length < f' := by
            simp only [List.length_drop, List.length_cons] at *
            omega
          rw [ih _ _ hlen hlen']
        · rw [if_neg hc, if_neg hc]
          have hl : rest.length < f := by simp at h1; omega
          have hl' : rest.length < f' := by simp at h2; omega
          rw [ih _ _ hl hl']

lemma splitGo_append {sep : List Char} (b : List Char) (hsep : sep ≠ []) :
    ∀ fuel a, (a ++ (sep ++ b)).length < fuel → (∀ ch ∈ sep, ch ∉ a) →
      splitGo sep fuel (a ++ (sep ++ b)) = a :: splitGo sep (b.length + 1) b := by
  intro fuel
  induction fuel with
  | zero => intro a h _; omega
  | succ f ih =>
    intro a hlen ha
    obtain ⟨s₀, srest, rfl⟩ : ∃ s₀ srest, sep = s₀ :: srest := by
      cases sep with
      | nil => exact absurd rfl hsep
      | cons x y => exact ⟨x, y, rfl⟩
    cases a with
    | nil =>
      have hpre : (s₀ :: srest).isPrefixOf ((s₀ :: srest) ++ b) = true :=
        List.isPrefixOf_iff_prefix.mpr (List.prefix_append _ _)
      rw [List.nil_append, List.cons_append, splitGo,
        if_pos (by rw [← List.cons_append]; simp [hpre]), ← List.cons_append,
        List.drop_left]
      have hblen : b.length < f := by
        simp only [List.nil_append, List.length_append, List.length_cons] at hlen
        omega
      rw [splitGo_congr _ f (b.length + 1) b hblen (by omega)]
    | cons x a' =>
      have hne : s₀ ≠ x := fun he => (ha s₀ (by simp)) (by simp [he])
      have hpre : (s₀ :: srest).isPrefixOf (x :: (a' ++ ((s₀ :: srest) ++ b))) = false := by
        rw [Bool.eq_false_iff]
        intro hx
        have hp2 := List.isPrefixOf_iff_prefix.mp hx
        rw [List.cons_prefix_cons] at hp2
        exact hne hp2.1
      rw [List.cons_append, splitGo, if_neg (by rw [hpre, Bool.and_false]; simp)]
      rw [ih a' (by simp at hlen ⊢; omega)
        (fun ch hch hm => ha ch hch (List.mem_cons_of_mem _ hm))]
      rfl

lemma splitOnSub_append {sep a : List Char} (b : List Char) (hsep : sep ≠ [])
    (ha : ∀ ch ∈ sep, ch ∉ a) :
    splitOnSub sep (a ++ (sep ++ b)) = a :: splitOnSub sep b :=
  splitGo_append b hsep _ a (by omega) ha

lemma splitOnSub_cons_of_not_prefix {sep : List Char} {c : Char} {s : List Char}
    (h : sep.isPrefixOf (c :: s) = false) :
    splitOnSub sep (c :: s) = consHead c (splitOnSub sep s) := by
  unfold splitOnSub
  rw [List.length_cons, splitGo, if_neg (by simp [h])]

lemma splitGo_ne_nil (sep : List Char) : ∀ fuel s, splitGo sep fuel s ≠ [] := by
  intro fuel
  induction fuel with
  | zero => intro s; simp [splitGo]
  | succ f ih =>
    intro s
    cases s with
    | nil => simp [splitGo]
    | cons c rest =>
      rw [splitGo]
      by_cases hc : (!sep.isEmpty && sep.isPrefixOf (c :: rest)) = true
      · rw [if_pos hc]; simp
      · rw [if_neg hc]
        cases h : splitGo sep f rest with
        | nil => exact absurd h (ih rest)
        | cons _ _ => simp [consHead]

lemma splitOnSub_ne_nil (sep s : List Char) : splitOnSub sep s ≠ [] :=
  splitGo_ne_nil sep _ s

lemma consHead_map_jsTrim_ws {c : Char} (h : jsIsWs c = true) {xs : List (List Char)}
    (hne : xs ≠ []) : (consHead c xs).map jsTrim = xs.map jsTrim := by
  cases xs with
  | nil => exact absurd rfl hne
  | cons x rest => simp [consHead, jsTrim_cons_ws h]

/-! ### Lemmas about decimal numerals and `jsParseInt` -/

lemma digitCh_isDigit : ∀ d, d < 10 → isDigitCh (digitCh d) = true := by decide

lemma digitCh_toNat : ∀ d, d < 10 → (digitCh d).toNat = 48 + d := by decide

lemma isDigitCh_bounds {c : Char} (h : isDigitCh c = true) :
    48 ≤ c.toNat ∧ c.toNat ≤ 57 := by
  simpa [isDigitCh] using h

/-- A decimal digit character is none of the characters the condition
grammar treats specially. -/
lemma digit_not_special {c : Char} (h : isDigitCh c = true) :
    c ≠ '>' ∧ c ≠ '<' ∧ c ≠ '=' ∧ c ≠ '&' ∧ c ≠ '-' ∧ c ≠ '+' ∧ jsIsWs c = false := by
  refine ⟨?_, ?_, ?_, ?_, ?_, ?_, ?_⟩
  · intro he; subst he; exact absurd h (by decide)
  · intro he; subst he; exact absurd h (by decide)
  · intro he; subst he; exact absurd h (by decide)
  · intro he; subst he; exact absurd h (by decide)
  · intro he; subst he; exact absurd h (by decide)
  · intro he; subst he; exact absurd h (by decide)
  · unfold jsIsWs
    rw [decide_eq_false_iff_not]
    rintro (he | he | he | he) <;> (subst he; exact absurd h (by decide))

lemma natCharsGo_append :
    ∀ fuel n acc, natCharsGo fuel n acc = natCharsGo fuel n [] ++ acc := by
  intro fuel
  induction fuel with
  | zero => intro n acc; simp [natCharsGo]
  | succ f ih =>
    intro n acc
    by_cases h : n = 0
    · simp [natCharsGo, h]
    · rw [natCharsGo, if_neg h, natCharsGo, if_neg h, ih (n / 10) _, ih (n / 10) [digitCh (n % 10)]]
      simp

lemma natCharsGo_congr :
    ∀ f₁ f₂ n, n < f₁ → n < f₂ → natCharsGo f₁ n [] = natCharsGo f₂ n [] := by
  intro f₁
  induction f₁ with
  | zero => intro f₂ n h _; omega
  | succ f ih =>
    intro f₂ n h1 h2
    cases f₂ with
    | zero => omega
    | succ f' =>
      by_cases h : n = 0
      · simp [natCharsGo, h]
      · rw [natCharsGo, if_neg h, natCharsGo, if_neg h,
          natCharsGo_append f (n / 10) _, natCharsGo_append f' (n / 10) _]
        have hd : n / 10 < n := Nat.div_lt_self (Nat.pos_of_ne_zero h) (by omega)
        rw [ih f' (n / 10) (by omega) (by omega)]

/-- Canonical digit list of a natural number (`digitsOf 0 = []`). -/
def digitsOf (n : Nat) : List Char := natCharsGo (n + 1) n []

lemma digitsOf_zero : digitsOf 0 = [] := rfl

lemma digitsOf_step {n : Nat} (h : 0 < n) :
    digitsOf n = digitsOf (n / 10) ++ [digitCh (n % 10)] := by
  have hd : n / 10 < n := Nat.div_lt_self h (by omega)
  rw [digitsOf, natCharsGo, if_neg (by omega), natCharsGo_append,
    natCharsGo_congr n (n / 10 + 1) (n / 10) (by omega) (by omega)]
  rfl

lemma digitsOf_all_digit (n : Nat) : ∀ c ∈ digitsOf n, isDigitCh c = true := by
  induction n using Nat.strong_induction_on with
  | _ n ih =>
    rcases Nat.eq_zero_or_pos n with h | h
    · subst h; simp [digitsOf_zero]
    · rw [digitsOf_step h]
      intro c hc
      rcases List.mem_append.mp hc with hc | hc
      · exact ih (n / 10) (Nat.div_lt_self h (by omega)) c hc
      · rw [List.mem_singleton.mp hc]
        exact digitCh_isDigit _ (Nat.mod_lt _ (by omega))

/-- The value computed by `parseDigits`'s fold. -/
def digitsToNat (l : List Char) : Nat :=
  l.foldl (fun a c => 10 * a + (c.toNat - 48)) 0

lemma digitsToNat_concat (l : List Char) (c : Char) :
    digitsToNat (l ++ [c]) = 10 * digitsToNat l + (c.toNat - 48) := by
  simp [digitsToNat, List.foldl_append]

lemma digitsToNat_digitsOf (n : Nat) : digitsToNat (digitsOf n) = n := by
  induction n using Nat.strong_induction_on with
  | _ n ih =>
    rcases Nat.eq_zero_or_pos n with h | h
    · subst h; simp [digitsOf_zero, digitsToNat]
    · rw [digitsOf_step h, digitsToNat_concat,
        ih (n / 10) (Nat.div_lt_self h (by omega)),
        digitCh_toNat _ (Nat.mod_lt _ (by omega))]
      omega

lemma natChars_eq (n : Nat) : natChars n = if n = 0 then ['0'] else digitsOf n := rfl

lemma natChars_all_digit (n : Nat) : ∀ c ∈ natChars n, isDigitCh c = true := by
  rw [natChars_eq]
  by_cases h : n = 0
  · subst h; simp; decide
  · rw [if_neg h]; exact digitsOf_all_digit n

lemma natChars_ne_nil (n : Nat) : natChars n ≠ [] := by
  rw [natChars_eq]
  by_cases h : n = 0
  · subst h; simp
  · rw [if_neg h, digitsOf_step (Nat.pos_of_ne_zero h)]
    simp

lemma parseDigits_natChars (n : Nat) : parseDigits (natChars n) = some n := by
  have hall : (natChars n).takeWhile isDigitCh = natChars n :=
    List.takeWhile_eq_self_iff.mpr (natChars_all_digit n)
  rw [parseDigits]
  simp only [hall, if_neg (natChars_ne_nil n)]
  congr 1
  show digitsToNat (natChars n) = n
  rw [natChars_eq]
  by_cases h : n = 0
  · subst h; decide
  · rw [if_neg h]; exact digitsToNat_digitsOf n

lemma mem_natChars_head {n : Nat} {c : Char} (h : (natChars n).head? = some c) :
    isDigitCh c = true :=
  natChars_all_digit n c (mem_of_head? h)

lemma jsParseInt_natChars (n : Nat) : jsParseInt (natChars n) = some (n : Int) := by
  obtain ⟨c, rest, hc⟩ : ∃ c rest, natChars n = c :: rest := by
    cases h : natChars n with
    | nil => exact absurd h (natChars_ne_nil n)
    | cons c rest => exact ⟨c, rest, rfl⟩
  have hdig : isDigitCh c = true := natChars_all_digit n c (by rw [hc]; simp)
  obtain ⟨_, _, _, _, hm, hp, hw⟩ := digit_not_special hdig
  have hdrop : (natChars n).dropWhile jsIsWs = natChars n := by
    rw [hc, List.dropWhile_cons, if_neg (by simp [hw])]
  rw [jsParseInt, hdrop, hc, List.head?_cons,
    if_neg (by simp [hm]), if_neg (by simp [hp]), ← hc, parseDigits_natChars]
  rfl

lemma jsParseInt_intChars (n : Int) : jsParseInt (intChars n) = some n := by
  rw [intChars]
  by_cases h : n < 0
  · rw [if_pos h]
    have hdrop : (('-' :: natChars (-n).toNat).dropWhile jsIsWs)
        = '-' :: natChars (-n).toNat := by
      rw [List.dropWhile_cons, if_neg (by decide)]
    rw [jsParseInt, hdrop, List.head?_cons, if_pos rfl, List.tail_cons,
      parseDigits_natChars, Option.map_some']
    congr 1
    rw [Int.toNat_of_nonneg (by omega)]
    omega
  · rw [if_neg h]
    rw [jsParseInt_natChars]
    congr 1
    exact Int.toNat_of_nonneg (by omega)

lemma intChars_mem {n : Int} : ∀ c ∈ intChars n, c = '-' ∨ isDigitCh c = true := by
  rw [intChars]
  by_cases h : n < 0
  · rw [if_pos h]
    intro c hc
    rcases List.mem_cons.mp hc with hc | hc
    · exact Or.inl hc
    · exact Or.inr (natChars_all_digit _ c hc)
  · rw [if_neg h]
    intro c hc
    exact Or.inr (natChars_all_digit _ c hc)

lemma intChars_ne_nil (n : Int) : intChars n ≠ [] := by
  rw [intChars]
  by_cases h : n < 0
  · rw [if_pos h]; simp
  · rw [if_neg h]; exact natChars_ne_nil _

/-! ### Lemmas about rendered clauses -/

lemma opChars_special {op : CompOp} {ch : Char} (h : ch ∈ opChars op) :
    ch = '>' ∨ ch = '<' ∨ ch = '=' ∨ ch = '&' := by
  cases op <;> simp [opChars, geStr, leStr, gtStr, ltStr, eqStr] at h <;> tauto

lemma specialChar_notMem_varSp {ch : Char} {v : List Char} (hv : goodVar v)
    (hch : ch = '>' ∨ ch = '<' ∨ ch = '=' ∨ ch = '&') : ch ∉ v ++ [' '] := by
  intro hm
  rcases List.mem_append.mp hm with hm | hm
  · rcases hv.2 ch hm with ⟨h1, h2, h3, h4, _⟩
    rcases hch with rfl | rfl | rfl | rfl <;> simp_all
  · rw [List.mem_singleton] at hm
    subst hm
    rcases hch with h | h | h | h <;> exact absurd h (by decide)

lemma specialChar_notMem_numSp {ch : Char} {n : Int}
    (hch : ch = '>' ∨ ch = '<' ∨ ch = '=' ∨ ch = '&') : ch ∉ ' ' :: intChars n := by
  intro hm
  rcases List.mem_cons.mp hm with rfl | hm
  · rcases hch with h | h | h | h <;> exact absurd h (by decide)
  · rcases intChars_mem ch hm with rfl | hd
    · rcases hch with h | h | h | h <;> exact absurd h (by decide)
    · obtain ⟨g1, g2, g3, g4, _, _, _⟩ := digit_not_special hd
      rcases hch with rfl | rfl | rfl | rfl <;> simp_all

lemma notMem_renderClause {ch : Char} {c : ClauseSpec} (hv : goodVar c.var)
    (hch : ch = '>' ∨ ch = '<' ∨ ch = '=' ∨ ch = '&')
    (hop : ch ∉ opChars c.op) : ch ∉ renderClause c := by
  rw [renderClause]
  intro hmem
  rcases List.mem_append.mp hmem with hm | hm
  · exact specialChar_notMem_varSp hv hch (List.mem_append.mpr (Or.inl hm))
  · rcases List.mem_cons.mp hm with rfl | hm
    · rcases hch with h | h | h | h <;> exact absurd h (by decide)
    · rcases List.mem_append.mp hm with hm | hm
      · exact hop hm
      · exact specialChar_notMem_numSp hch hm

lemma jsTrim_varSp {v : List Char} (hv : goodVar v) : jsTrim (v ++ [' ']) = v := by
  rw [jsTrim_concat_ws (by decide)]
  exact jsTrim_eq_self_of_all (fun c hc => (hv.2 c hc).2.2.2.2)

lemma jsTrim_numSp (n : Int) : jsTrim (' ' :: intChars n) = intChars n := by
  rw [jsTrim_cons_ws (by decide)]
  apply jsTrim_eq_self_of_all
  intro c hc
  rcases intChars_mem c hc with rfl | hd
  · decide
  · exact (digit_not_special hd).2.2.2.2.2.2

lemma jsTrim_renderClause {c : ClauseSpec} (hv : goodVar c.var) :
    jsTrim (renderClause c) = renderClause c := by
  obtain ⟨v, op, n⟩ := c
  obtain ⟨hvne, hvchars⟩ := hv
  obtain ⟨x, v', rfl⟩ : ∃ x v', v = x :: v' := by
    cases hvv : v with
    | nil => exact absurd hvv hvne
    | cons a b => exact ⟨a, b, rfl⟩
  apply jsTrim_eq_self_of
  · intro ch hch
    rw [renderClause, List.cons_append, List.head?_cons] at hch
    have hx : ch = x := by
      injection hch with h
      exact h.symm
    subst hx
    exact (hvchars ch (by simp)).2.2.2.2
  · intro ch hch
    have hA : renderClause ⟨x :: v', op, n⟩
        = ((x :: v') ++ [' '] ++ opChars op ++ [' ']) ++ intChars n := by
      simp [renderClause]
    rw [hA, List.reverse_append,
      List.head?_append_of_ne_nil _ (by simpa using intChars_ne_nil n)] at hch
    have hmem : ch ∈ intChars n := by simpa using mem_of_head? hch
    rcases intChars_mem ch hmem with rfl | hd
    · decide
    · exact (digit_not_special hd).2.2.2.2.2.2

/-! ### Boolean forms of the source's comparison guards -/

lemma not_jsLt_some (x n : Int) : (!jsLt x (some n)) = decide (n ≤ x) := by
  by_cases h : x < n <;> simp [jsLt, h] <;> omega

lemma not_jsGt_some (x n : Int) : (!jsGt x (some n)) = decide (x ≤ n) := by
  by_cases h : n < x <;> simp [jsGt, h] <;> omega

lemma not_jsLe_some (x n : Int) : (!jsLe x (some n)) = decide (n < x) := by
  by_cases h : x ≤ n <;> simp [jsLe, h] <;> omega

lemma not_jsGe_some (x n : Int) : (!jsGe x (some n)) = decide (x < n) := by
  by_cases h : n ≤ x <;> simp [jsGe, h] <;> omega

lemma not_jsNeq_some (x n : Int) : (!jsNeq x (some n)) = decide (x = n) := by
  by_cases h : x = n <;> simp [jsNeq, h]

lemma getD_zero_pair (a b d : List Char) : List.getD [a, b] 0 d = a := rfl

lemma getD_one_pair (a b d : List Char) : List.getD [a, b] 1 d = b := rfl

/-- Splitting a rendered clause on its own operator isolates the variable
part and the literal part. -/
lemma splitOnSub_renderClause {v : List Char} (hv : goodVar v) (op : CompOp) (n : Int) :
    splitOnSub (opChars op) (renderClause ⟨v, op, n⟩)
      = (v ++ [' ']) :: [' ' :: intChars n] := by
  have hre : renderClause ⟨v, op, n⟩
      = (v ++ [' ']) ++ (opChars op ++ (' ' :: intChars n)) := by
    simp [renderClause]
  have hop : opChars op ≠ [] := by cases op <;> decide
  rw [hre, splitOnSub_append _ hop
      (fun ch hch => specialChar_notMem_varSp hv (opChars_special hch)),
    splitOnSub_eq_single hop
      (fun ch hch => specialChar_notMem_numSp (opChars_special hch))]

lemma containsSub_op_renderClause {v : List Char} (op : CompOp) (n : Int) :
    containsSub (opChars op) (renderClause ⟨v, op, n⟩) = true := by
  have hre : renderClause ⟨v, op, n⟩
      = (v ++ [' ']) ++ (opChars op ++ (' ' :: intChars n)) := by
    simp [renderClause]
  rw [hre]
  exact containsSub_append _ _ _

/-- Core of claim C4: on a rendered well-formed clause, the source's
clause loop computes exactly the intended integer comparison. -/
lemma clausePasses_renderClause {c : ClauseSpec} (hv : goodVar c.var)
    (s : BatchProcessingStats) :
    clausePasses (renderClause c) s = clauseHolds c s := by
  obtain ⟨v, op, n⟩ := c
  cases op with
  | ge =>
    have hcon := containsSub_op_renderClause (v := v) .ge n
    simp only [opChars] at hcon
    have hsp := splitOnSub_renderClause hv .ge n
    simp only [opChars] at hsp
    rw [clausePasses, if_pos hcon, hsp]
    simp only [List.map_cons, List.map_nil, jsTrim_varSp hv, jsTrim_numSp,
      getD_zero_pair, getD_one_pair, jsParseInt_intChars, not_jsLt_some]
    rfl
  | le =>
    have hno_ge : containsSub geStr (renderClause ⟨v, .le, n⟩) = false :=
      containsSub_eq_false_of_missing (show '>' ∈ geStr by decide)
        (notMem_renderClause hv (Or.inl rfl) (show '>' ∉ opChars CompOp.le by decide))
    have hcon := containsSub_op_renderClause (v := v) .le n
    simp only [opChars] at hcon
    have hsp := splitOnSub_renderClause hv .le n
    simp only [opChars] at hsp
    rw [clausePasses, if_neg (by simp [hno_ge]), if_pos hcon, hsp]
    simp only [List.map_cons, List.map_nil, jsTrim_varSp hv, jsTrim_numSp,
      getD_zero_pair, getD_one_pair, jsParseInt_intChars, not_jsGt_some]
    rfl
  | gt =>
    have hno_ge : containsSub geStr (renderClause ⟨v, .gt, n⟩) = false :=
      containsSub_eq_false_of_missing (show '=' ∈ geStr by decide)
        (notMem_renderClause hv (Or.inr (Or.inr (Or.inl rfl))) (show '=' ∉ opChars CompOp.gt by decide))
    have hno_le : containsSub leStr (renderClause ⟨v, .gt, n⟩) = false :=
      containsSub_eq_false_of_missing (show '<' ∈ leStr by decide)
        (notMem_renderClause hv (Or.inr (Or.inl rfl)) (show '<' ∉ opChars CompOp.gt by decide))
    have hcon := containsSub_op_renderClause (v := v) .gt n
    simp only [opChars] at hcon
    have hsp := splitOnSub_renderClause hv .gt n
    simp only [opChars] at hsp
    rw [clausePasses, if_neg (by simp [hno_ge]), if_neg (by simp [hno_le]),
      if_pos hcon, hsp]
    simp only [List.map_cons, List.map_nil, jsTrim_varSp hv, jsTrim_numSp,
      getD_zero_pair, getD_one_pair, jsParseInt_intChars, not_jsLe_some]
    rfl
  | lt =>
    have hno_ge : containsSub geStr (renderClause ⟨v, .lt, n⟩) = false :=
      containsSub_eq_false_of_missing (show '>' ∈ geStr by decide)
        (notMem_renderClause hv (Or.inl rfl) (show '>' ∉ opChars CompOp.lt by decide))
    have hno_le : containsSub leStr (renderClause ⟨v, .lt, n⟩) = false :=
      containsSub_eq_false_of_missing (show '=' ∈ leStr by decide)
        (notMem_renderClause hv (Or.inr (Or.inr (Or.inl rfl))) (show '=' ∉ opChars CompOp.lt by decide))
    have hno_gt : containsSub gtStr (renderClause ⟨v, .lt, n⟩) = false :=
      containsSub_eq_false_of_missing (show '>' ∈ gtStr by decide)
        (notMem_renderClause hv (Or.inl rfl) (show '>' ∉ opChars CompOp.lt by decide))
    have hcon := containsSub_op_renderClause (v := v) .lt n
    simp only [opChars] at hcon
    have hsp := splitOnSub_renderClause hv .lt n
    simp only [opChars] at hsp
    rw [clausePasses, if_neg (by simp [hno_ge]), if_neg (by simp [hno_le]),
      if_neg (by simp [hno_gt]), if_pos hcon, hsp]
    simp only [List.map_cons, List.map_nil, jsTrim_varSp hv, jsTrim_numSp,
      getD_zero_pair, getD_one_pair, jsParseInt_intChars, not_jsGe_some]
    rfl
  | eq =>
    have hno_ge : containsSub geStr (renderClause ⟨v, .eq, n⟩) = false :=
      containsSub_eq_false_of_missing (show '>' ∈ geStr by decide)
        (notMem_renderClause hv (Or.inl rfl) (show '>' ∉ opChars CompOp.eq by decide))
    have hno_le : containsSub leStr (renderClause ⟨v, .eq, n⟩) = false :=
      containsSub_eq_false_of_missing (show '<' ∈ leStr by decide)
        (notMem_renderClause hv (Or.inr (Or.inl rfl)) (show '<' ∉ opChars CompOp.eq by decide))
    have hno_gt : containsSub gtStr (renderClause ⟨v, .eq, n⟩) = false :=
      containsSub_eq_false_of_missing (show '>' ∈ gtStr by decide)
        (notMem_renderClause hv (Or.inl rfl) (show '>' ∉ opChars CompOp.eq by decide))
    have hno_lt : containsSub ltStr (renderClause ⟨v, .eq, n⟩) = false :=
      containsSub_eq_false_of_missing (show '<' ∈ ltStr by decide)
        (notMem_renderClause hv (Or.inr (Or.inl rfl)) (show '<' ∉ opChars CompOp.eq by decide))
    have hcon := containsSub_op_renderClause (v := v) .eq n
    simp only [opChars] at hcon
    have hsp := splitOnSub_renderClause hv .eq n
    simp only [opChars] at hsp
    rw [clausePasses, if_neg (by simp [hno_ge]), if_neg (by simp [hno_le]),
      if_neg (by simp [hno_gt]), if_neg (by simp [hno_lt]), if_pos hcon, hsp]
    simp only [List.map_cons, List.map_nil, jsTrim_varSp hv, jsTrim_numSp,
      getD_zero_pair, getD_one_pair, jsParseInt_intChars, not_jsNeq_some]
    rfl

lemma renderCond_single (c : ClauseSpec) : renderCond [c] = renderClause c := rfl

lemma renderCond_cons (c c2 : ClauseSpec) (cs : List ClauseSpec) :
    renderCond (c :: c2 :: cs)
      = renderClause c ++ ' ' :: '&' :: '&' :: ' ' :: renderCond (c2 :: cs) := rfl

lemma andStr_mem {ch : Char} (h : ch ∈ andStr) : ch = '&' := by
  rcases List.mem_cons.mp h with rfl | h2
  · rfl
  · rw [List.mem_singleton] at h2
    exact h2

lemma amp_notMem_renderClause {c : ClauseSpec} (hv : goodVar c.var) :
    '&' ∉ renderClause c := by
  obtain ⟨v, op, n⟩ := c
  exact notMem_renderClause hv (Or.inr (Or.inr (Or.inr rfl)))
    (show ('&' : Char) ∉ opChars op by cases op <;> decide)

/-- Splitting a rendered conjunction on `&&` and trimming gives back the
individual rendered clauses, in order. -/
lemma splitOnSub_renderCond :
    ∀ cs : List ClauseSpec, cs ≠ [] → (∀ c ∈ cs, goodVar c.var) →
      (splitOnSub andStr (renderCond cs)).map jsTrim
        = cs.map (fun c => renderClause c) := by
  intro cs
  induction cs with
  | nil => intro h _; exact absurd rfl h
  | cons c cs ih =>
    intro _ hall
    have hvc : goodVar c.var := hall c (by simp)
    cases cs with
    | nil =>
      rw [renderCond_single,
        splitOnSub_eq_single (by decide)
          (fun ch hch => by rw [andStr_mem hch]; exact amp_notMem_renderClause hvc)]
      simp [jsTrim_renderClause hvc]
    | cons c2 cs2 =>
      have hre : renderCond (c :: c2 :: cs2)
          = (renderClause c ++ [' ']) ++ (andStr ++ (' ' :: renderCond (c2 :: cs2))) := by
        rw [renderCond_cons]
        simp [andStr]
      have hamp : ∀ ch ∈ andStr, ch ∉ renderClause c ++ [' '] := by
        intro ch hch hmem
        rw [andStr_mem hch] at hmem
        rcases List.mem_append.mp hmem with hm | hm
        · exact amp_notMem_renderClause hvc hm
        · rw [List.mem_singleton] at hm
          exact absurd hm (by decide)
      have hpre : andStr.isPrefixOf (' ' :: renderCond (c2 :: cs2)) = false := by
        rw [Bool.eq_false_iff]
        intro hx
        have h2 := List.isPrefixOf_iff_prefix.mp hx
        rw [show andStr = '&' :: ['&'] from rfl, List.cons_prefix_cons] at h2
        exact absurd h2.1 (by decide)
      rw [hre, splitOnSub_append _ (by decide) hamp,
        splitOnSub_cons_of_not_prefix hpre, List.map_cons,
        consHead_map_jsTrim_ws (by decide) (splitOnSub_ne_nil _ _),
        ih (by simp) (fun x hx => hall x (List.mem_cons_of_mem _ hx)),
        jsTrim_concat_ws (by decide), jsTrim_renderClause hvc]
      simp

lemma all_map_comp {α β : Type} (l : List α) (f : α → β) (p : β → Bool) :
    (l.map f).all p = l.all (fun x => p (f x)) := by
  induction l with
  | nil => rfl
  | cons a l ih => simp [List.all_cons, ih]

lemma all_congr_mem {α : Type} (f g : α → Bool) (l : List α)
    (h : ∀ x ∈ l, f x = g x) : l.all f = l.all g := by
  induction l with
  | nil => rfl
  | cons a l ih =>
    simp only [List.all_cons, h a (by simp), ih (fun x hx => h x (by simp [hx]))]

/-- Claim C4, as a reusable lemma: a rendered conjunction of well-formed
clauses evaluates to the conjunction of the corresponding integer
comparisons. -/
lemma evaluateCondition_renderCond (s : BatchProcessingStats)
    (cs : List ClauseSpec) (hne : cs ≠ []) (hall : ∀ c ∈ cs, goodVar c.var) :
    evaluateCondition (renderCond cs) s = cs.all (fun c => clauseHolds c s) := by
  obtain ⟨c0, cs0, rfl⟩ : ∃ c0 cs0, cs = c0 :: cs0 := by
    cases cs with
    | nil => exact absurd rfl hne
    | cons a b => exact ⟨a, b, rfl⟩
  have hv0 : goodVar c0.var := hall c0 (by simp)
  obtain ⟨x, v', hvx⟩ : ∃ x v', c0.var = x :: v' := by
    cases hvv : c0.var with
    | nil => exact absurd hvv hv0.1
    | cons a b => exact ⟨a, b, rfl⟩
  have hxw : jsIsWs x = false := (hv0.2 x (by rw [hvx]; simp)).2.2.2.2
  have hxr : x ∈ renderClause c0 := by
    rw [renderClause, hvx]
    simp
  have hxm : x ∈ renderCond (c0 :: cs0) := by
    cases cs0 with
    | nil => rw [renderCond_single]; exact hxr
    | cons c2 cs2 => rw [renderCond_cons]; exact List.mem_append.mpr (Or.inl hxr)
  rw [evaluateCondition, if_neg (jsTrim_ne_nil hxm hxw),
    splitOnSub_renderCond _ (by simp) hall, all_map_comp]
  exact all_congr_mem _ _ _
    (fun c hc => clausePasses_renderClause (hall c hc) s)

/-! ### Operator-free clauses (claim C1) -/

/-- Does a trimmed clause contain any recognized operator substring? -/
def clauseHasOp (cl : List Char) : Bool :=
  containsSub geStr cl || containsSub leStr cl || containsSub gtStr cl ||
    containsSub ltStr cl || containsSub eqStr cl

/-- A clause containing none of the five operator substrings falls
through the whole `if`/`else if` chain: the loop ignores it. -/
lemma clausePasses_of_no_op {cl : List Char} (h : clauseHasOp cl = false)
    (s : BatchProcessingStats) : clausePasses cl s = true := by
  rw [clauseHasOp] at h
  simp only [Bool.or_eq_false_iff] at h
  obtain ⟨⟨⟨⟨h1, h2⟩, h3⟩, h4⟩, h5⟩ := h
  rw [clausePasses, if_neg (by simp [h1]), if_neg (by simp [h2]),
    if_neg (by simp [h3]), if_neg (by simp [h4]), if_neg (by simp [h5])]

/-! ### TaskManager (`src/taskManager.ts`) -/

/-- The structured task-description document (`TaskConfig` of
`interfaces.ts`, fields as validated by `loadTaskConfig`). -/
structure TaskConfig where
  taskSummary : String
  taskDescription : List String
  filePatterns : Option (List String) := none

/-- `String.prototype.trim` at the `String` level. -/
def jsTrimStr (s : String) : String := String.mk (jsTrim s.data)

/-- The field normalization `loadTaskConfig` (lines 116–120) applies
after validation: the summary and every item are trimmed. -/
def loadTaskConfigFields (cfg : TaskConfig) : TaskConfig :=
  { taskSummary := jsTrimStr cfg.taskSummary
    taskDescription := cfg.taskDescription.map jsTrimStr
    filePatterns := cfg.filePatterns }

/-- Decimal rendering of a natural number as a `String` (the
`${index + 1}` interpolation). -/
def natStr (n : Nat) : String := String.mk (natChars n)

/-- JavaScript `Array.prototype.join(sep)`. -/
def joinSep (sep : String) : List String → String
  | [] => ""
  | [x] => x
  | x :: xs => x ++ sep ++ joinSep sep xs

/-- The combined instruction string built by `getTaskDescription`
(`taskManager.ts` line 57): the summary, a blank line, the literal label
`詳細:`, then the items numbered from 1, one per line. -/
def combineTask (cfg : TaskConfig) : String :=
  cfg.taskSummary ++ "\n\n詳細:\n"
    ++ joinSep "\n"
        (cfg.taskDescription.enum.map (fun p => natStr (p.1 + 1) ++ ". " ++ p.2))

/-- Direct recursive rendering of a numbered item list, starting at
number `k`: the clean shape the spec describes. -/
def numberedLines (k : Nat) : List String → String
  | [] => ""
  | [item] => natStr k ++ ". " ++ item
  | item :: rest => natStr k ++ ". " ++ item ++ "\n" ++ numberedLines (k + 1) rest

lemma joinSep_enumFrom (items : List String) :
    ∀ k, joinSep "\n" ((List.enumFrom k items).map
        (fun p => natStr (p.1 + 1) ++ ". " ++ p.2))
      = numberedLines (k + 1) items := by
  induction items with
  | nil => intro k; rfl
  | cons a rest ih =>
    intro k
    cases rest with
    | nil => rfl
    | cons b rest2 =>
      show joinSep "\n" ((natStr (k + 1) ++ ". " ++ a)
          :: (List.enumFrom (k + 1) (b :: rest2)).map
              (fun p => natStr (p.1 + 1) ++ ". " ++ p.2))
        = numberedLines (k + 1) (a :: b :: rest2)
      rw [show numberedLines (k + 1) (a :: b :: rest2)
          = natStr (k + 1) ++ ". " ++ a ++ "\n" ++ numberedLines (k + 2) (b :: rest2)
        from rfl]
      have hne : (List.enumFrom (k + 1) (b :: rest2)).map
          (fun p => natStr (p.1 + 1) ++ ". " ++ p.2) ≠ [] := by simp
      obtain ⟨y, ys, hy⟩ : ∃ y ys, (List.enumFrom (k + 1) (b :: rest2)).map
          (fun p => natStr (p.1 + 1) ++ ". " ++ p.2) = y :: ys := by
        cases hxx : (List.enumFrom (k + 1) (b :: rest2)).map
            (fun p => natStr (p.1 + 1) ++ ". " ++ p.2) with
        | nil => exact absurd hxx hne
        | cons y ys => exact ⟨y, ys, rfl⟩
      rw [hy, joinSep, ← hy, ih (k + 1)]
      simp [String.append_assoc]

/-- The numbered rendering `combineTask` performs, in closed recursive
form. -/
lemma combineTask_eq (cfg : TaskConfig) :
    combineTask cfg
      = cfg.taskSummary ++ "\n\n詳細:\n" ++ numberedLines 1 cfg.taskDescription := by
  rw [combineTask]
  have he : cfg.taskDescription.enum = List.enumFrom 0 cfg.taskDescription := rfl
  rw [he, joinSep_enumFrom cfg.taskDescription 0, String.append_assoc]

/-! ### File selection (`src/batchProcessor.ts` lines 13–126) -/

/-- Abstract directory tree, as enumerated by the editor's
`readDirectory`: each entry is a name plus a node, in listing order.
`other` stands for entries that are neither plain files nor directories
(symbolic links etc.). -/
inductive FsTree where
  | nil : FsTree
  | file (name : String) (rest : FsTree) : FsTree
  | dir (name : String) (children : FsTree) (rest : FsTree) : FsTree
  | other (name : String) (rest : FsTree) : FsTree

/-- A node directly selected in the open dialog, as classified by the
`stat` call of `getFilesFromUri`; `other` also covers a failing `stat`. -/
inductive SelNode where
  | file : SelNode
  | dir (children : FsTree) : SelNode
  | other : SelNode

/-- `vscode.Uri.joinPath` for one component. -/
def joinName (p name : String) : String := p ++ "/" ++ name

/-- JavaScript `s.startsWith(pre)`: a plain string-prefix test. -/
def jsStartsWith (s pre : String) : Bool := pre.data.isPrefixOf s.data

/-- `name.startsWith('.')` — the hidden-file test of
`getAllFilesInDirectory` (line 105). -/
def isDotName (name : String) : Bool := decide (name.data.head? = some '.')

/-- `getAllFilesInDirectory` (lines 97–126): walk the listing in order;
skip every entry whose name starts with a dot; collect plain files;
recurse into subdirectories; skip anything else. -/
def getAllFilesInDirectory (p : String) : FsTree → List String
  | .nil => []
  | .file name rest =>
    if isDotName name then getAllFilesInDirectory p rest
    else joinName p name :: getAllFilesInDirectory p rest
  | .dir name children rest =>
    if isDotName name then getAllFilesInDirectory p rest
    else getAllFilesInDirectory (joinName p name) children
        ++ getAllFilesInDirectory p rest
  | .other _ rest => getAllFilesInDirectory p rest

/-- `getFilesFromUri` (lines 73–94): a file is returned as itself, a
directory is expanded recursively, anything else yields nothing.  Note
that no dot-name check happens here. -/
def getFilesFromUri (p : String) : SelNode → List String
  | .file => [p]
  | .dir children => getAllFilesInDirectory p children
  | .other => []

/-- `selectFilesAndFolders` (lines 13–70): keep the selections whose
path starts with the workspace path (the rest are skipped with a
warning), then expand each kept selection in order. -/
def selectFilesAndFolders (workspacePath : String)
    (selected : List (String × SelNode)) : List String :=
  let validUris := selected.filter (fun s => jsStartsWith s.1 workspacePath)
  if validUris.isEmpty then []
  else validUris.bind (fun s => getFilesFromUri s.1 s.2)

/-- Fold a component list onto a base path, mirroring how the recursion
of `getAllFilesInDirectory` extends the current path. -/
def joinPathList (p : String) : List String → String
  | [] => p
  | c :: cs => joinPathList (joinName p c) cs

/-- Does any `/`-separated component of the path begin with a dot? -/
def hasDotComponent (p : String) : Bool :=
  (splitOnSub ['/'] p.data).any (fun c => decide (c.head? = some '.'))

lemma getAllFilesInDirectory_shape (t : FsTree) :
    ∀ (p : String), ∀ out ∈ getAllFilesInDirectory p t,
      ∃ comps, comps ≠ [] ∧ (∀ c ∈ comps, isDotName c = false) ∧
        out = joinPathList p comps := by
  induction t with
  | nil => intro p out hout; simp [getAllFilesInDirectory] at hout
  | file name rest ih =>
    intro p out hout
    rw [getAllFilesInDirectory] at hout
    by_cases hd : isDotName name = true
    · rw [if_pos hd] at hout
      exact ih p out hout
    · rw [if_neg hd] at hout
      rcases List.mem_cons.mp hout with rfl | hm
      · exact ⟨[name], by simp, by simpa using Bool.eq_false_iff.mpr hd, rfl⟩
      · exact ih p out hm
  | dir name children rest ihc ihr =>
    intro p out hout
    rw [getAllFilesInDirectory] at hout
    by_cases hd : isDotName name = true
    · rw [if_pos hd] at hout
      exact ihr p out hout
    · rw [if_neg hd] at hout
      rcases List.mem_append.mp hout with hm | hm
      · obtain ⟨comps, hne, hdot, hout⟩ := ihc (joinName p name) out hm
        refine ⟨name :: comps, by simp, ?_, hout⟩
        intro c hc
        rcases List.mem_cons.mp hc with rfl | hc
        · exact Bool.eq_false_iff.mpr hd
        · exact hdot c hc
      · exact ihr p out hm
  | other name rest ih =>
    intro p out hout
    rw [getAllFilesInDirectory] at hout
    exact ih p out hout

lemma jsStartsWith_joinName {root p : String} (h : jsStartsWith p root = true)
    (name : String) : jsStartsWith (joinName p name) root = true := by
  unfold jsStartsWith joinName at *
  rw [List.isPrefixOf_iff_prefix] at *
  have hstep : p.data <+: (p ++ "/" ++ name).data := by
    rw [String.data_append, String.data_append, List.append_assoc]
    exact List.prefix_append _ _
  exact h.trans hstep

lemma jsStartsWith_joinPathList {root : String} :
    ∀ (comps : List String) (p : String), jsStartsWith p root = true →
      jsStartsWith (joinPathList p comps) root = true := by
  intro comps
  induction comps with
  | nil => intro p h; exact h
  | cons c cs ih => intro p h; exact ih _ (jsStartsWith_joinName h c)

/-- Every path produced by `selectFilesAndFolders` passes the same
string-prefix test against the workspace path that the selection filter
uses (which, notably, is weaker than containment in the workspace
directory). -/
lemma selectFilesAndFolders_prefix (root : String)
    (selected : List (String × SelNode)) :
    ∀ p ∈ selectFilesAndFolders root selected, jsStartsWith p root = true := by
  intro p hp
  unfold selectFilesAndFolders at hp
  by_cases hempty :
      (selected.filter (fun s => jsStartsWith s.1 root)).isEmpty = true
  · rw [if_pos hempty] at hp
    simp at hp
  · rw [if_neg hempty] at hp
    obtain ⟨⟨q, node⟩, hmem, hq⟩ := List.mem_bind.mp hp
    have hqpre : jsStartsWith q root = true := by
      have := List.mem_filter.mp hmem
      simpa using this.2
    cases node with
    | file =>
      rw [getFilesFromUri] at hq
      rw [List.mem_singleton.mp hq]
      exact hqpre
    | dir children =>
      rw [getFilesFromUri] at hq
      obtain ⟨comps, _, _, rfl⟩ := getAllFilesInDirectory_shape children q p hq
      exact jsStartsWith_joinPathList comps q hqpre
    | other =>
      rw [getFilesFromUri] at hq
      simp at hq

/-! ### TaskAgentDriver (`src/clineIntegration.ts`) -/

/-- The agent task statuses returned by `getTaskStatus`. -/
inductive TaskStatus where
  | none | active | completed | cancelled
  deriving DecidableEq, Repr

/-- One file's view of the external Cline agent: whether `startNewTask`
and `pressPrimaryButton` resolve, and the k-th `getTaskStatus` result
(`Option.none` models a rejected poll). -/
structure AgentEnv where
  submitOk : Bool
  confirmOk : Bool
  status : Nat → Option TaskStatus

/-- Which agent-integration step threw. -/
inductive TaskError where
  | submitFailed | confirmFailed | statusFailed
  deriving DecidableEq, Repr

/-- `maxWaitTime` (line 22): ten minutes in milliseconds. -/
def maxWaitTime : Nat := 10 * 60 * 1000

/-- `checkInterval` (line 23): five seconds in milliseconds. -/
def checkInterval : Nat := 5000

/-- Number of `getTaskStatus` polls the wait loop performs before the
budget is exhausted: the loop body runs while `elapsed < maxWaitTime`
and `elapsed` grows by `checkInterval` per iteration, so exactly
`maxWaitTime / checkInterval = 120` polls happen. -/
def numPolls : Nat := maxWaitTime / checkInterval

/-- The polling loop of `processFileWithCline` (lines 26–40), indexed by
the number of remaining iterations.  Returns `ok true` when the budget
is exhausted without a terminal status (the source then only logs a
timeout warning), `ok false` on a terminal status, and an error when a
poll itself throws. -/
def pollLoop (a : AgentEnv) : Nat → Nat → Except TaskError Bool
  | _, 0 => .ok true
  | k, n + 1 =>
    match a.status k with
    | Option.none => .error .statusFailed
    | some .completed | some .cancelled | some TaskStatus.none => .ok false
    | some .active => pollLoop a (k + 1) n

/-- `processFileWithCline` (lines 5–45): submit the prompt (the prompt
embeds the file path and task text, not the file content), wait the
settle delay, press the primary button once, then poll.  The result
`ok timedOut` is a normal return; any throwing agent call propagates as
an error. -/
def processFileWithCline (a : AgentEnv) : Except TaskError Bool :=
  if !a.submitOk then .error .submitFailed
  else if !a.confirmOk then .error .confirmFailed
  else pollLoop a 0 numPolls

lemma pollLoop_stuck {a : AgentEnv} (h : ∀ k, a.status k = some .active) :
    ∀ n k, pollLoop a k n = .ok true := by
  intro n
  induction n with
  | zero => intro k; rfl
  | succ m ih =>
    intro k
    rw [pollLoop, h k]
    exact ih (k + 1)

lemma pollLoop_error {a : AgentEnv} :
    ∀ n k e, pollLoop a k n = .error e → ∃ j, a.status j = Option.none := by
  intro n
  induction n with
  | zero => intro k e h; exact absurd h (by rw [pollLoop]; simp)
  | succ m ih =>
    intro k e h
    rw [pollLoop] at h
    cases hs : a.status k with
    | none => exact ⟨k, hs⟩
    | some st =>
      rw [hs] at h
      cases st with
      | none => exact absurd h (by simp)
      | completed => exact absurd h (by simp)
      | cancelled => exact absurd h (by simp)
      | active => exact ih (k + 1) e h

/-! ### BatchOrchestrator (`src/batchProcessor.ts`, `startBatchProcessing`)

The orchestrator interacts with the editor, the file system, git, the
agent and the dashboard.  `RunEnv` packages those external behaviours as
oracles: a flag or function per external call site, consumed in program
order.  `RunTrace` records the externally observable effects the claims
talk about. -/

/-- The four kinds of blocks appended to the run log. -/
inductive LogBlock where
  | header | hookRun (p : HookPoint) | taskCompleted (success : Bool) | summary
  deriving DecidableEq, Repr

/-- Errors of unguarded steps inside the run (no `try`/`catch` in the
source): a rejected `appendLogSection` or `getTaskMessages`. -/
inductive RunError where
  | appendFailed | messagesFailed
  deriving DecidableEq, Repr

/-- How a call of `startBatchProcessing` ends. -/
inductive Outcome where
  | notInstalled | apiUnavailable | noFiles | intentCancelled
  | aborted (e : RunError) | completed
  deriving DecidableEq, Repr

/-- Externally observable effects of a run. -/
structure RunTrace where
  hookRuns : List (HookPoint × BatchProcessingStats) := []
  logBlocks : List LogBlock := []
  agentInvocations : Nat := 0
  dashboard : Option BatchProcessingStats := none
  deriving DecidableEq, Repr

/-- The environment of one `startBatchProcessing` call. -/
structure RunEnv where
  clineInstalled : Bool
  clineApiAvailable : Bool
  files : List Nat
  taskGiven : Bool
  hooks : List HookConfig
  gitAvailable : Bool
  gitCount : Nat → Option Nat
  logCreated : Bool
  appendOk : Nat → Bool
  messagesOk : Nat → Bool
  agent : Nat → AgentEnv
  cancelAt : Nat → Bool
  startTimeVal : Nat
  endTimeVal : Nat

/-- Mutable state threaded through the run: the statistics object, the
trace, per-oracle call counters, and the list of statistics snapshots
taken after each completed loop iteration (the claims' observation
points). -/
structure MState where
  stats : BatchProcessingStats
  trace : RunTrace
  gitCalls : Nat
  appendCalls : Nat
  msgCalls : Nat
  iterationStats : List BatchProcessingStats
  deriving DecidableEq, Repr

/-- `refreshModifiedFilesCount` (lines 368–376): a no-op without git;
otherwise one `git status` probe whose successful count overwrites
`modifiedFiles` and whose failure (`none`) leaves it unchanged. -/
def refreshModified (env : RunEnv) (st : MState) : MState :=
  if env.gitAvailable then
    match env.gitCount st.gitCalls with
    | some n =>
      { st with stats := { st.stats with modifiedFiles := n },
                gitCalls := st.gitCalls + 1 }
    | Option.none => { st with gitCalls := st.gitCalls + 1 }
  else st

/-- `runHooksWithLogging` (lines 289–311): run the hooks of one
lifecycle point against the current statistics.  `executeHooks` catches
each hook's failure and `runHooksWithLogging` catches everything else,
so the step never throws; it is modelled as recording the lifecycle
point with the statistics snapshot the hooks observe. -/
def runHooksStep (p : HookPoint) (st : MState) : MState :=
  { st with trace := { st.trace with
      hookRuns := st.trace.hookRuns ++ [(p, st.stats)] } }

/-- `appendLogSection` (lines 254–256): a bare `fs.promises.appendFile`
with no `try`/`catch` — a rejection propagates to the caller. -/
def appendStep (env : RunEnv) (b : LogBlock) (st : MState) :
    Except RunError MState :=
  if env.appendOk st.appendCalls then
    .ok { st with appendCalls := st.appendCalls + 1,
                  trace := { st.trace with
                    logBlocks := st.trace.logBlocks ++ [b] } }
  else .error .appendFailed

/-- The body of one iteration of the per-file loop (lines 406–447),
after the cancellation check: `beforeFile` hooks, the guarded
`processFileWithCline` call (success increments `successfulFiles`,
failure increments `failedFiles` and `errorCount` and runs the `onError`
hooks), then `processedFiles` increment, `afterFile` hooks, and — when a
log file exists — `getTaskMessages` followed by the task-completion
append, either of which may throw.  Returns the new state and the error
of an unguarded step, if any. -/
def fileStep (env : RunEnv) (logCreated : Bool) (i : Nat) (st : MState) :
    MState × Option RunError :=
  let st1 := runHooksStep .beforeFile (refreshModified env st)
  let st2 := { st1 with trace := { st1.trace with
                 agentInvocations := st1.trace.agentInvocations + 1 } }
  let afterTask :=
    match processFileWithCline (env.agent i) with
    | .ok _ =>
      ({ st2 with stats := { st2.stats with
           successfulFiles := st2.stats.successfulFiles + 1 } }, true)
    | .error _ =>
      let st3 := { st2 with stats := { st2.stats with
                     failedFiles := st2.stats.failedFiles + 1,
                     errorCount := st2.stats.errorCount + 1 } }
      (runHooksStep .onError (refreshModified env st3), false)
  match afterTask with
  | (stA, success) =>
    let st5 := { stA with stats := { stA.stats with
                   processedFiles := stA.stats.processedFiles + 1 } }
    let st6 := runHooksStep .afterFile (refreshModified env st5)
    if logCreated then
      if env.messagesOk st6.msgCalls then
        let st7 := { st6 with msgCalls := st6.msgCalls + 1 }
        match appendStep env (.taskCompleted success) st7 with
        | .ok st8 =>
          ({ st8 with iterationStats := st8.iterationStats ++ [st8.stats] },
           Option.none)
        | .error e => (st7, some e)
      else ({ st6 with msgCalls := st6.msgCalls + 1 }, some .messagesFailed)
    else
      ({ st6 with iterationStats := st6.iterationStats ++ [st6.stats] },
       Option.none)

/-- The per-file loop (lines 402–448): at the top of each iteration the
cancellation token is checked and a requested cancellation breaks out of
the loop; otherwise the body runs and an error of an unguarded step
aborts the whole run. -/
def loopRun (env : RunEnv) (logCreated : Bool) :
    List Nat → Nat → MState → MState × Option RunError
  | [], _, st => (st, Option.none)
  | _ :: rest, i, st =>
    if env.cancelAt i then (st, Option.none)
    else
      match fileStep env logCreated i st with
      | (st9, Option.none) => loopRun env logCreated rest (i + 1) st9
      | (stE, some e) => (stE, some e)

/-- The `if (logFilePath)`-guarded append of the `beforeBatch` hook block
(lines 381–385): nothing is written when no log file was created. -/
def maybeAppend (env : RunEnv) (b : LogBlock) (st : MState) :
    Except RunError MState :=
  if env.logCreated then appendStep env b st else .ok st

/-- The `if (logFilePath)`-guarded run-end writes (lines 459–474): the
`afterBatch` hook block followed by the summary block. -/
def endAppends (env : RunEnv) (st : MState) : Except RunError MState :=
  if env.logCreated then
    (appendStep env (.hookRun .afterBatch) st).bind
      (fun s => appendStep env .summary s)
  else .ok st

/-- The log content right after step 6: `createBatchLogFile` writes the
header block on success and leaves no log on failure. -/
def initLogBlocks (env : RunEnv) : List LogBlock :=
  if env.logCreated then [LogBlock.header] else []

/-- The statistics object as initialized in step 5 (lines 354–362). -/
def initStats (env : RunEnv) : BatchProcessingStats :=
  { totalFiles := env.files.length, processedFiles := 0, successfulFiles := 0,
    failedFiles := 0, modifiedFiles := 0, errorCount := 0,
    startTime := env.startTimeVal, endTime := Option.none }

/-- Result of one `startBatchProcessing` call. -/
structure RunResult where
  outcome : Outcome
  stats : BatchProcessingStats
  trace : RunTrace
  iterationStats : List BatchProcessingStats
  deriving DecidableEq, Repr

/-- `startBatchProcessing` (lines 314–491): resolve the agent (failure
throws before anything runs), select files and obtain the task intent
(benign early exits), load hooks, initialize statistics, create the log
(failure yields a null handle and the run continues), run `beforeBatch`
hooks and their log block, run the per-file loop, then the completion
sequence: set `endTime`, refresh `modifiedFiles`, run `afterBatch`
hooks, append the `afterBatch` block and the summary block, and notify
the dashboard. -/
def runBatch (env : RunEnv) : RunResult :=
  if !env.clineInstalled then
    { outcome := .notInstalled, stats := initStats env, trace := {},
      iterationStats := [] }
  else if !env.clineApiAvailable then
    { outcome := .apiUnavailable, stats := initStats env, trace := {},
      iterationStats := [] }
  else if env.files.isEmpty then
    { outcome := .noFiles, stats := initStats env, trace := {},
      iterationStats := [] }
  else if !env.taskGiven then
    { outcome := .intentCancelled, stats := initStats env, trace := {},
      iterationStats := [] }
  else
    let st0 : MState :=
      { stats := initStats env,
        trace := { logBlocks := initLogBlocks env },
        gitCalls := 0, appendCalls := 0, msgCalls := 0, iterationStats := [] }
    let st1 := runHooksStep .beforeBatch (refreshModified env st0)
    match maybeAppend env (.hookRun .beforeBatch) st1 with
    | .error e =>
      { outcome := .aborted e, stats := st1.stats, trace := st1.trace,
        iterationStats := st1.iterationStats }
    | .ok st2 =>
      match loopRun env env.logCreated env.files 0 st2 with
      | (stL, some e) =>
        { outcome := .aborted e, stats := stL.stats, trace := stL.trace,
          iterationStats := stL.iterationStats }
      | (stL, Option.none) =>
        let stE := { stL with stats := { stL.stats with
                       endTime := some env.endTimeVal } }
        let stH := runHooksStep .afterBatch (refreshModified env stE)
        match endAppends env stH with
        | .error e =>
          { outcome := .aborted e, stats := stH.stats, trace := stH.trace,
            iterationStats := stH.iterationStats }
        | .ok stF =>
          let stD := { stF with trace := { stF.trace with
                         dashboard := some stF.stats } }
          { outcome := .completed, stats := stD.stats, trace := stD.trace,
            iterationStats := stD.iterationStats }

/-- Claim C2's statistics invariant. -/
def statsInv (s : BatchProcessingStats) : Prop :=
  s.processedFiles = s.successfulFiles + s.failedFiles ∧
  s.processedFiles ≤ s.totalFiles

/-! ### Projection lemmas for the orchestrator steps -/

@[simp] lemma refreshModified_totalFiles (env : RunEnv) (st : MState) :
    (refreshModified env st).stats.totalFiles = st.stats.totalFiles := by
  unfold refreshModified; split
  · split <;> rfl
  · rfl

@[simp] lemma refreshModified_processedFiles (env : RunEnv) (st : MState) :
    (refreshModified env st).stats.processedFiles = st.stats.processedFiles := by
  unfold refreshModified; split
  · split <;> rfl
  · rfl

@[simp] lemma refreshModified_successfulFiles (env : RunEnv) (st : MState) :
    (refreshModified env st).stats.successfulFiles = st.stats.successfulFiles := by
  unfold refreshModified; split
  · split <;> rfl
  · rfl

@[simp] lemma refreshModified_failedFiles (env : RunEnv) (st : MState) :
    (refreshModified env st).stats.failedFiles = st.stats.failedFiles := by
  unfold refreshModified; split
  · split <;> rfl
  · rfl

@[simp] lemma refreshModified_errorCount (env : RunEnv) (st : MState) :
    (refreshModified env st).stats.errorCount = st.stats.errorCount := by
  unfold refreshModified; split
  · split <;> rfl
  · rfl

@[simp] lemma refreshModified_startTime (env : RunEnv) (st : MState) :
    (refreshModified env st).stats.startTime = st.stats.startTime := by
  unfold refreshModified; split
  · split <;> rfl
  · rfl

@[simp] lemma refreshModified_endTime (env : RunEnv) (st : MState) :
    (refreshModified env st).stats.endTime = st.stats.endTime := by
  unfold refreshModified; split
  · split <;> rfl
  · rfl

@[simp] lemma refreshModified_trace (env : RunEnv) (st : MState) :
    (refreshModified env st).trace = st.trace := by
  unfold refreshModified; split
  · split <;> rfl
  · rfl

@[simp] lemma refreshModified_iterationStats (env : RunEnv) (st : MState) :
    (refreshModified env st).iterationStats = st.iterationStats := by
  unfold refreshModified; split
  · split <;> rfl
  · rfl

@[simp] lemma refreshModified_appendCalls (env : RunEnv) (st : MState) :
    (refreshModified env st).appendCalls = st.appendCalls := by
  unfold refreshModified; split
  · split <;> rfl
  · rfl

@[simp] lemma refreshModified_msgCalls (env : RunEnv) (st : MState) :
    (refreshModified env st).msgCalls = st.msgCalls := by
  unfold refreshModified; split
  · split <;> rfl
  · rfl

@[simp] lemma runHooksStep_stats (p : HookPoint) (st : MState) :
    (runHooksStep p st).stats = st.stats := rfl

@[simp] lemma runHooksStep_iterationStats (p : HookPoint) (st : MState) :
    (runHooksStep p st).iterationStats = st.iterationStats := rfl

@[simp] lemma runHooksStep_appendCalls (p : HookPoint) (st : MState) :
    (runHooksStep p st).appendCalls = st.appendCalls := rfl

@[simp] lemma runHooksStep_msgCalls (p : HookPoint) (st : MState) :
    (runHooksStep p st).msgCalls = st.msgCalls := rfl

@[simp] lemma runHooksStep_logBlocks (p : HookPoint) (st : MState) :
    (runHooksStep p st).trace.logBlocks = st.trace.logBlocks := rfl

@[simp] lemma runHooksStep_agentInvocations (p : HookPoint) (st : MState) :
    (runHooksStep p st).trace.agentInvocations = st.trace.agentInvocations := rfl

@[simp] lemma runHooksStep_dashboard (p : HookPoint) (st : MState) :
    (runHooksStep p st).trace.dashboard = st.trace.dashboard := rfl

@[simp] lemma runHooksStep_hookRuns (p : HookPoint) (st : MState) :
    (runHooksStep p st).trace.hookRuns = st.trace.hookRuns ++ [(p, st.stats)] := rfl

lemma appendStep_ok {env : RunEnv} {b : LogBlock} {st st' : MState}
    (h : appendStep env b st = .ok st') :
    st'.stats = st.stats ∧ st'.iterationStats = st.iterationStats ∧
    st'.msgCalls = st.msgCalls ∧
    st'.trace.hookRuns = st.trace.hookRuns ∧
    st'.trace.agentInvocations = st.trace.agentInvocations ∧
    st'.trace.dashboard = st.trace.dashboard ∧
    st'.trace.logBlocks = st.trace.logBlocks ++ [b] := by
  unfold appendStep at h
  split at h
  · injection h with h
    subst h
    exact ⟨rfl, rfl, rfl, rfl, rfl, rfl, rfl⟩
  · cases h

lemma appendStep_isOk {env : RunEnv} (hok : ∀ n, env.appendOk n = true)
    (b : LogBlock) (st : MState) : ∃ st', appendStep env b st = .ok st' := by
  unfold appendStep
  rw [if_pos (hok st.appendCalls)]
  exact ⟨_, rfl⟩


/-! ### Behaviour of one loop iteration (`fileStep`) -/

lemma fileStep_stats (env : RunEnv) (logCreated : Bool) (i : Nat) (st : MState) :
    (fileStep env logCreated i st).1.stats.totalFiles = st.stats.totalFiles ∧
    (fileStep env logCreated i st).1.stats.startTime = st.stats.startTime ∧
    (fileStep env logCreated i st).1.stats.endTime = st.stats.endTime ∧
    (fileStep env logCreated i st).1.stats.processedFiles
      = st.stats.processedFiles + 1 ∧
    (fileStep env logCreated i st).1.stats.successfulFiles
        + (fileStep env logCreated i st).1.stats.failedFiles
      = st.stats.successfulFiles + st.stats.failedFiles + 1 ∧
    (fileStep env logCreated i st).1.trace.agentInvocations
      = st.trace.agentInvocations + 1 ∧
    (fileStep env logCreated i st).1.trace.dashboard = st.trace.dashboard := by
  unfold fileStep
  cases hres : processFileWithCline (env.agent i) with
  | ok b =>
    simp only [hres]
    split
    · split
      · split
        next st8 heq =>
          obtain ⟨e1, e2, e3, e4, e5, e6, e7⟩ := appendStep_ok heq
          refine ⟨?_, ?_, ?_, ?_, ?_, ?_, ?_⟩ <;> simp [e1, e5, e6] <;> try omega
        next e heq => refine ⟨?_, ?_, ?_, ?_, ?_, ?_, ?_⟩ <;> simp <;> try omega
      · refine ⟨?_, ?_, ?_, ?_, ?_, ?_, ?_⟩ <;> simp <;> try omega
    · refine ⟨?_, ?_, ?_, ?_, ?_, ?_, ?_⟩ <;> simp <;> try omega
  | error e =>
    simp only [hres]
    split
    · split
      · split
        next st8 heq =>
          obtain ⟨e1, e2, e3, e4, e5, e6, e7⟩ := appendStep_ok heq
          refine ⟨?_, ?_, ?_, ?_, ?_, ?_, ?_⟩ <;> simp [e1, e5, e6] <;> try omega
        next e2 heq => refine ⟨?_, ?_, ?_, ?_, ?_, ?_, ?_⟩ <;> simp <;> try omega
      · refine ⟨?_, ?_, ?_, ?_, ?_, ?_, ?_⟩ <;> simp <;> try omega
    · refine ⟨?_, ?_, ?_, ?_, ?_, ?_, ?_⟩ <;> simp <;> try omega

lemma fileStep_iter (env : RunEnv) (logCreated : Bool) (i : Nat) (st : MState) :
    ((fileStep env logCreated i st).2 = Option.none →
      (fileStep env logCreated i st).1.iterationStats
        = st.iterationStats ++ [(fileStep env logCreated i st).1.stats]) ∧
    (∀ e, (fileStep env logCreated i st).2 = some e →
      (fileStep env logCreated i st).1.iterationStats = st.iterationStats) ∧
    (logCreated = false → (fileStep env logCreated i st).2 = Option.none) ∧
    ((∀ n, env.appendOk n = true) → (∀ n, env.messagesOk n = true) →
      (fileStep env logCreated i st).2 = Option.none) := by
  unfold fileStep
  cases hres : processFileWithCline (env.agent i) with
  | ok b =>
    simp only [hres]
    split
    · split
      · split
        next st8 heq =>
          obtain ⟨e1, e2, e3, e4, e5, e6, e7⟩ := appendStep_ok heq
          refine ⟨?_, ?_, ?_, ?_⟩ <;> intros <;> simp_all
        next e heq =>
          refine ⟨?_, ?_, ?_, ?_⟩ <;> intros <;> simp_all
          next hap hmsg =>
            obtain ⟨st', h'⟩ := appendStep_isOk hap (.taskCompleted true) _
            rw [h'] at heq
            cases heq
      · refine ⟨?_, ?_, ?_, ?_⟩ <;> intros <;> simp_all
    · refine ⟨?_, ?_, ?_, ?_⟩ <;> intros <;> simp_all
  | error e =>
    simp only [hres]
    split
    · split
      · split
        next st8 heq =>
          obtain ⟨e1, e2, e3, e4, e5, e6, e7⟩ := appendStep_ok heq
          refine ⟨?_, ?_, ?_, ?_⟩ <;> intros <;> simp_all
        next e2 heq =>
          refine ⟨?_, ?_, ?_, ?_⟩ <;> intros <;> simp_all
          next hap hmsg =>
            obtain ⟨st', h'⟩ := appendStep_isOk hap (.taskCompleted false) _
            rw [h'] at heq
            cases heq
      · refine ⟨?_, ?_, ?_, ?_⟩ <;> intros <;> simp_all
    · refine ⟨?_, ?_, ?_, ?_⟩ <;> intros <;> simp_all

lemma fileStep_hooks (env : RunEnv) (logCreated : Bool) (i : Nat) (st : MState) :
    ∀ q ∈ (fileStep env logCreated i st).1.trace.hookRuns,
      q.1 = HookPoint.onError →
        q ∈ st.trace.hookRuns ∨
        (q.2.processedFiles = st.stats.processedFiles ∧
         q.2.successfulFiles = st.stats.successfulFiles ∧
         q.2.failedFiles = st.stats.failedFiles + 1 ∧
         q.2.errorCount = st.stats.errorCount + 1) := by
  unfold fileStep
  cases hres : processFileWithCline (env.agent i) with
  | ok b =>
    simp only [hres]
    split
    · split
      · split
        next st8 heq =>
          obtain ⟨e1, e2, e3, e4, e5, e6, e7⟩ := appendStep_ok heq
          intro q hq hqe
          simp [e4] at hq
          rcases hq with hq | hq | hq
          · exact Or.inl hq
          · rw [hq] at hqe; cases hqe
          · rw [hq] at hqe; cases hqe
        next e heq =>
          intro q hq hqe
          simp at hq
          rcases hq with hq | hq | hq
          · exact Or.inl hq
          · rw [hq] at hqe; cases hqe
          · rw [hq] at hqe; cases hqe
      · intro q hq hqe
        simp at hq
        rcases hq with hq | hq | hq
        · exact Or.inl hq
        · rw [hq] at hqe; cases hqe
        · rw [hq] at hqe; cases hqe
    · intro q hq hqe
      simp at hq
      rcases hq with hq | hq | hq
      · exact Or.inl hq
      · rw [hq] at hqe; cases hqe
      · rw [hq] at hqe; cases hqe
  | error e =>
    simp only [hres]
    split
    · split
      · split
        next st8 heq =>
          obtain ⟨e1, e2, e3, e4, e5, e6, e7⟩ := appendStep_ok heq
          intro q hq hqe
          simp [e4] at hq
          rcases hq with hq | hq | hq | hq
          · exact Or.inl hq
          · rw [hq] at hqe; cases hqe
          · rw [hq]; right; simp
          · rw [hq] at hqe; cases hqe
        next e2 heq =>
          intro q hq hqe
          simp at hq
          rcases hq with hq | hq | hq | hq
          · exact Or.inl hq
          · rw [hq] at hqe; cases hqe
          · rw [hq]; right; simp
          · rw [hq] at hqe; cases hqe
      · intro q hq hqe
        simp at hq
        rcases hq with hq | hq | hq | hq
        · exact Or.inl hq
        · rw [hq] at hqe; cases hqe
        · rw [hq]; right; simp
        · rw [hq] at hqe; cases hqe
    · intro q hq hqe
      simp at hq
      rcases hq with hq | hq | hq | hq
      · exact Or.inl hq
      · rw [hq] at hqe; cases hqe
      · rw [hq]; right; simp
      · rw [hq] at hqe; cases hqe

lemma fileStep_outcome (env : RunEnv) (logCreated : Bool) (i : Nat) (st : MState) :
    (∀ b, processFileWithCline (env.agent i) = .ok b →
      (fileStep env logCreated i st).1.stats.successfulFiles
        = st.stats.successfulFiles + 1 ∧
      (fileStep env logCreated i st).1.stats.failedFiles = st.stats.failedFiles ∧
      (fileStep env logCreated i st).1.stats.errorCount = st.stats.errorCount) ∧
    (∀ e, processFileWithCline (env.agent i) = .error e →
      (fileStep env logCreated i st).1.stats.successfulFiles
        = st.stats.successfulFiles ∧
      (fileStep env logCreated i st).1.stats.failedFiles
        = st.stats.failedFiles + 1 ∧
      (fileStep env logCreated i st).1.stats.errorCount
        = st.stats.errorCount + 1) := by
  unfold fileStep
  cases hres : processFileWithCline (env.agent i) with
  | ok b =>
    simp only [hres]
    split
    · split
      · split
        next st8 heq =>
          obtain ⟨e1, e2, e3, e4, e5, e6, e7⟩ := appendStep_ok heq
          refine ⟨?_, ?_⟩ <;> intros <;> simp_all
        next e heq =>
          refine ⟨?_, ?_⟩ <;> intros <;> simp_all
      · refine ⟨?_, ?_⟩ <;> intros <;> simp_all
    · refine ⟨?_, ?_⟩ <;> intros <;> simp_all
  | error e =>
    simp only [hres]
    split
    · split
      · split
        next st8 heq =>
          obtain ⟨e1, e2, e3, e4, e5, e6, e7⟩ := appendStep_ok heq
          refine ⟨?_, ?_⟩ <;> intros <;> simp_all
        next e2 heq =>
          refine ⟨?_, ?_⟩ <;> intros <;> simp_all
      · refine ⟨?_, ?_⟩ <;> intros <;> simp_all
    · refine ⟨?_, ?_⟩ <;> intros <;> simp_all

/-! ### Behaviour of the per-file loop -/

lemma loopRun_cons_cancel {env : RunEnv} {logCreated : Bool} {f : Nat}
    {rest : List Nat} {i : Nat} {st : MState} (hc : env.cancelAt i = true) :
    loopRun env logCreated (f :: rest) i st = (st, Option.none) := by
  rw [loopRun, if_pos hc]

lemma loopRun_cons_none {env : RunEnv} {logCreated : Bool} {f : Nat}
    {rest : List Nat} {i : Nat} {st st9 : MState}
    (hc : env.cancelAt i = false)
    (hfs : fileStep env logCreated i st = (st9, Option.none)) :
    loopRun env logCreated (f :: rest) i st
      = loopRun env logCreated rest (i + 1) st9 := by
  rw [loopRun, if_neg (by simp [hc]), hfs]

lemma loopRun_cons_some {env : RunEnv} {logCreated : Bool} {f : Nat}
    {rest : List Nat} {i : Nat} {st st9 : MState} {e : RunError}
    (hc : env.cancelAt i = false)
    (hfs : fileStep env logCreated i st = (st9, some e)) :
    loopRun env logCreated (f :: rest) i st = (st9, some e) := by
  rw [loopRun, if_neg (by simp [hc]), hfs]

lemma loopRun_inv (env : RunEnv) (logCreated : Bool) :
    ∀ (files : List Nat) (i : Nat) (st : MState),
      st.stats.processedFiles = st.stats.successfulFiles + st.stats.failedFiles →
      st.stats.processedFiles + files.length ≤ st.stats.totalFiles →
      (∀ s ∈ st.iterationStats, statsInv s) →
      (∀ s ∈ (loopRun env logCreated files i st).1.iterationStats, statsInv s) ∧
      statsInv (loopRun env logCreated files i st).1.stats := by
  intro files
  induction files with
  | nil =>
    intro i st h1 h2 h3
    exact ⟨h3, h1, by simpa using h2⟩
  | cons f rest ih =>
    intro i st h1 h2 h3
    simp only [List.length_cons] at h2
    by_cases hcb : env.cancelAt i = true
    · rw [loopRun_cons_cancel hcb]
      exact ⟨h3, h1, show st.stats.processedFiles ≤ st.stats.totalFiles by omega⟩
    · have hc : env.cancelAt i = false := by simpa using hcb
      obtain ⟨g1, _, _, g4, g5, _, _⟩ := fileStep_stats env logCreated i st
      obtain ⟨gi1, gi2, _, _⟩ := fileStep_iter env logCreated i st
      cases hfs : fileStep env logCreated i st with
      | mk st9 err =>
        rw [hfs] at g1 g4 g5 gi1 gi2
        simp only at g1 g4 g5
        have hinv9 : st9.stats.processedFiles
            = st9.stats.successfulFiles + st9.stats.failedFiles := by omega
        cases err with
        | none =>
          rw [loopRun_cons_none hc hfs]
          have hiter : st9.iterationStats = st.iterationStats ++ [st9.stats] := by
            simpa using gi1 rfl
          refine ih (i + 1) st9 hinv9 (by omega) ?_
          intro s hs
          rw [hiter] at hs
          rcases List.mem_append.mp hs with hs | hs
          · exact h3 s hs
          · rw [List.mem_singleton.mp hs]
            exact ⟨hinv9, by omega⟩
        | some e =>
          rw [loopRun_cons_some hc hfs]
          have hiter : st9.iterationStats = st.iterationStats := by
            simpa using gi2 e rfl
          refine ⟨?_, hinv9, by simpa using by omega⟩
          simp only
          rw [hiter]
          exact h3

lemma loopRun_noLog_ok (env : RunEnv) :
    ∀ (files : List Nat) (i : Nat) (st : MState),
      (loopRun env false files i st).2 = Option.none := by
  intro files
  induction files with
  | nil => intro i st; rfl
  | cons f rest ih =>
    intro i st
    by_cases hcb : env.cancelAt i = true
    · rw [loopRun_cons_cancel hcb]
    · have hc : env.cancelAt i = false := by simpa using hcb
      obtain ⟨_, _, h3, _⟩ := fileStep_iter env false i st
      cases hfs : fileStep env false i st with
      | mk st9 err =>
        rw [hfs] at h3
        cases err with
        | none =>
          rw [loopRun_cons_none hc hfs]
          exact ih (i + 1) st9
        | some e =>
          have := h3 rfl
          simp at this

lemma loopRun_ok_of_external_ok (env : RunEnv) (logCreated : Bool)
    (hap : ∀ n, env.appendOk n = true) (hmsg : ∀ n, env.messagesOk n = true) :
    ∀ (files : List Nat) (i : Nat) (st : MState),
      (loopRun env logCreated files i st).2 = Option.none := by
  intro files
  induction files with
  | nil => intro i st; rfl
  | cons f rest ih =>
    intro i st
    by_cases hcb : env.cancelAt i = true
    · rw [loopRun_cons_cancel hcb]
    · have hc : env.cancelAt i = false := by simpa using hcb
      obtain ⟨_, _, _, h4⟩ := fileStep_iter env logCreated i st
      cases hfs : fileStep env logCreated i st with
      | mk st9 err =>
        rw [hfs] at h4
        cases err with
        | none =>
          rw [loopRun_cons_none hc hfs]
          exact ih (i + 1) st9
        | some e =>
          have := h4 hap hmsg
          simp at this

lemma loopRun_cancel_count (env : RunEnv) (logCreated : Bool)
    (hap : ∀ n, env.appendOk n = true) (hmsg : ∀ n, env.messagesOk n = true) :
    ∀ (files : List Nat) (i k : Nat) (st : MState),
      i ≤ k → k < i + files.length →
      (∀ j, i ≤ j → j < k → env.cancelAt j = false) →
      env.cancelAt k = true →
      (loopRun env logCreated files i st).2 = Option.none ∧
      (loopRun env logCreated files i st).1.stats.processedFiles
        = st.stats.processedFiles + (k - i) ∧
      (loopRun env logCreated files i st).1.trace.agentInvocations
        = st.trace.agentInvocations + (k - i) := by
  intro files
  induction files with
  | nil =>
    intro i k st h1 h2 _ _
    simp only [List.length_nil, Nat.add_zero] at h2
    omega
  | cons f rest ih =>
    intro i k st hik hk hcbefore hck
    simp only [List.length_cons] at hk
    by_cases hcb : env.cancelAt i = true
    · have hie : i = k := by
        by_contra hne
        have hlt : i < k := by omega
        rw [hcbefore i (le_refl i) hlt] at hcb
        cases hcb
      rw [loopRun_cons_cancel hcb]
      subst hie
      exact ⟨rfl,
        show st.stats.processedFiles = st.stats.processedFiles + (i - i) by omega,
        show st.trace.agentInvocations = st.trace.agentInvocations + (i - i) by omega⟩
    · have hc : env.cancelAt i = false := by simpa using hcb
      have hik' : i < k := by
        rcases Nat.lt_or_ge i k with h | h
        · exact h
        · have hie : i = k := by omega
          rw [hie] at hc
          rw [hck] at hc
          cases hc
      obtain ⟨_, _, _, g4, _, g6, _⟩ := fileStep_stats env logCreated i st
      obtain ⟨_, _, _, h4⟩ := fileStep_iter env logCreated i st
      cases hfs : fileStep env logCreated i st with
      | mk st9 err =>
        rw [hfs] at g4 g6 h4
        simp only at g4 g6
        cases err with
        | none =>
          rw [loopRun_cons_none hc hfs]
          obtain ⟨c1, c2, c3⟩ := ih (i + 1) k st9 (by omega) (by omega)
            (fun j hj1 hj2 => hcbefore j (by omega) hj2) hck
          exact ⟨c1, by omega, by omega⟩
        | some e =>
          have := h4 hap hmsg
          simp at this

lemma loopRun_all_success (env : RunEnv) (logCreated : Bool)
    (hap : ∀ n, env.appendOk n = true) (hmsg : ∀ n, env.messagesOk n = true)
    (hnc : ∀ j, env.cancelAt j = false)
    (hagent : ∀ j, ∃ b, processFileWithCline (env.agent j) = .ok b) :
    ∀ (files : List Nat) (i : Nat) (st : MState),
      (loopRun env logCreated files i st).2 = Option.none ∧
      (loopRun env logCreated files i st).1.stats.processedFiles
        = st.stats.processedFiles + files.length ∧
      (loopRun env logCreated files i st).1.stats.successfulFiles
        = st.stats.successfulFiles + files.length ∧
      (loopRun env logCreated files i st).1.stats.failedFiles
        = st.stats.failedFiles ∧
      (loopRun env logCreated files i st).1.stats.errorCount
        = st.stats.errorCount := by
  intro files
  induction files with
  | nil => intro i st; exact ⟨rfl, rfl, rfl, rfl, rfl⟩
  | cons f rest ih =>
    intro i st
    obtain ⟨_, _, _, g4, _, _, _⟩ := fileStep_stats env logCreated i st
    obtain ⟨gout, _⟩ := fileStep_outcome env logCreated i st
    obtain ⟨_, _, _, h4⟩ := fileStep_iter env logCreated i st
    obtain ⟨b, hb⟩ := hagent i
    obtain ⟨s1, s2, s3⟩ := gout b hb
    cases hfs : fileStep env logCreated i st with
    | mk st9 err =>
      rw [hfs] at g4 h4 s1 s2 s3
      simp at g4 s1 s2 s3
      cases err with
      | none =>
        rw [loopRun_cons_none (hnc i) hfs]
        obtain ⟨c1, c2, c3, c4, c5⟩ := ih (i + 1) st9
        refine ⟨c1, ?_, ?_, ?_, ?_⟩ <;>
          first
            | (simp only [List.length_cons]; omega)
            | omega
      | some e =>
        have := h4 hap hmsg
        simp at this

lemma loopRun_onError (env : RunEnv) (logCreated : Bool) :
    ∀ (files : List Nat) (i : Nat) (st : MState),
      st.stats.processedFiles = st.stats.successfulFiles + st.stats.failedFiles →
      ∀ q ∈ (loopRun env logCreated files i st).1.trace.hookRuns,
        q.1 = HookPoint.onError →
        (q ∈ st.trace.hookRuns ∨
         (q.2.processedFiles + 1 = q.2.successfulFiles + q.2.failedFiles ∧
          1 ≤ q.2.failedFiles ∧ 1 ≤ q.2.errorCount)) := by
  intro files
  induction files with
  | nil =>
    intro i st _ q hq _
    exact Or.inl hq
  | cons f rest ih =>
    intro i st h1 q hq hqe
    by_cases hcb : env.cancelAt i = true
    · rw [loopRun_cons_cancel hcb] at hq
      exact Or.inl hq
    · have hc : env.cancelAt i = false := by simpa using hcb
      obtain ⟨_, _, _, g4, g5, _, _⟩ := fileStep_stats env logCreated i st
      have ghk := fileStep_hooks env logCreated i st
      cases hfs : fileStep env logCreated i st with
      | mk st9 err =>
        rw [hfs] at g4 g5 ghk
        simp only at g4 g5 ghk
        have hinv9 : st9.stats.processedFiles
            = st9.stats.successfulFiles + st9.stats.failedFiles := by omega
        have hstep : ∀ q2 ∈ st9.trace.hookRuns, q2.1 = HookPoint.onError →
            (q2 ∈ st.trace.hookRuns ∨
             (q2.2.processedFiles + 1 = q2.2.successfulFiles + q2.2.failedFiles ∧
              1 ≤ q2.2.failedFiles ∧ 1 ≤ q2.2.errorCount)) := by
          intro q2 hq2 hq2e
          rcases ghk q2 hq2 hq2e with hin | ⟨p1, p2, p3, p4⟩
          · exact Or.inl hin
          · exact Or.inr ⟨by omega, by omega, by omega⟩
        cases err with
        | none =>
          rw [loopRun_cons_none hc hfs] at hq
          rcases ih (i + 1) st9 hinv9 q hq hqe with hin | hfacts
          · exact hstep q hin hqe
          · exact Or.inr hfacts
        | some e =>
          rw [loopRun_cons_some hc hfs] at hq
          exact hstep q hq hqe

/-! ### Run-level lemmas and the claims about the orchestrator -/

lemma maybeAppend_ok {env : RunEnv} {b : LogBlock} {st st' : MState}
    (heq : maybeAppend env b st = .ok st') :
    st'.stats = st.stats ∧ st'.iterationStats = st.iterationStats ∧
    st'.trace.hookRuns = st.trace.hookRuns ∧
    st'.trace.agentInvocations = st.trace.agentInvocations ∧
    st'.trace.dashboard = st.trace.dashboard := by
  unfold maybeAppend at heq
  split at heq
  · obtain ⟨e1, e2, _, e4, e5, e6, _⟩ := appendStep_ok heq
    exact ⟨e1, e2, e4, e5, e6⟩
  · injection heq with h
    subst h
    exact ⟨rfl, rfl, rfl, rfl, rfl⟩

lemma maybeAppend_isOk {env : RunEnv} (hap : ∀ n, env.appendOk n = true)
    (b : LogBlock) (st : MState) : ∃ st', maybeAppend env b st = .ok st' := by
  unfold maybeAppend
  split
  · exact appendStep_isOk hap b st
  · exact ⟨st, rfl⟩

lemma endAppends_ok {env : RunEnv} {st st' : MState}
    (heq : endAppends env st = .ok st') :
    st'.stats = st.stats ∧ st'.iterationStats = st.iterationStats ∧
    st'.trace.hookRuns = st.trace.hookRuns ∧
    st'.trace.agentInvocations = st.trace.agentInvocations ∧
    st'.trace.dashboard = st.trace.dashboard ∧
    (env.logCreated = true →
      st'.trace.logBlocks
        = st.trace.logBlocks
            ++ [LogBlock.hookRun .afterBatch, LogBlock.summary]) := by
  unfold endAppends at heq
  split at heq
  next hlog =>
    cases happ : appendStep env (.hookRun .afterBatch) st with
    | error e => rw [happ] at heq; cases heq
    | ok stM =>
      rw [happ] at heq
      simp only [Except.bind] at heq
      obtain ⟨f1, f2, f3, f4, f5, f6, f7⟩ := appendStep_ok happ
      obtain ⟨g1, g2, g3, g4, g5, g6, g7⟩ := appendStep_ok heq
      refine ⟨by rw [g1, f1], by rw [g2, f2], by rw [g4, f4], by rw [g5, f5],
        by rw [g6, f6], fun _ => ?_⟩
      rw [g7, f7, List.append_assoc]
      rfl
  next hlog =>
    injection heq with h
    subst h
    exact ⟨rfl, rfl, rfl, rfl, rfl, fun hl => absurd hl (by simpa using hlog)⟩

lemma endAppends_isOk {env : RunEnv} (hap : ∀ n, env.appendOk n = true)
    (st : MState) : ∃ st', endAppends env st = .ok st' := by
  unfold endAppends
  split
  · obtain ⟨stM, hM⟩ := appendStep_isOk hap (.hookRun .afterBatch) st
    rw [hM]
    obtain ⟨stS, hS⟩ := appendStep_isOk hap .summary stM
    exact ⟨stS, by simp [Except.bind, hS]⟩
  · exact ⟨st, rfl⟩

/-- Claim C2: at every observation point after a completed loop iteration
and on the final statistics of the run, `processedFiles` equals
`successfulFiles + failedFiles` and never exceeds `totalFiles` — for any
environment, including runs that abort, cancel, or exit early. -/
theorem runBatch_stats_invariant (env : RunEnv) :
    (∀ s ∈ (runBatch env).iterationStats, statsInv s) ∧
    statsInv (runBatch env).stats := by
  rw [runBatch]
  by_cases h1 : (!env.clineInstalled) = true
  · rw [if_pos h1]
    exact ⟨by simp, by simp [statsInv, initStats]⟩
  rw [if_neg h1]
  by_cases h2 : (!env.clineApiAvailable) = true
  · rw [if_pos h2]
    exact ⟨by simp, by simp [statsInv, initStats]⟩
  rw [if_neg h2]
  by_cases h3 : env.files.isEmpty = true
  · rw [if_pos h3]
    exact ⟨by simp, by simp [statsInv, initStats]⟩
  rw [if_neg h3]
  by_cases h4 : (!env.taskGiven) = true
  · rw [if_pos h4]
    exact ⟨by simp, by simp [statsInv, initStats]⟩
  rw [if_neg h4]
  dsimp only
  split
  next e heq =>
    exact ⟨by simp, by simp [statsInv, initStats]⟩
  next st2 heq =>
    obtain ⟨e1, e2, _, _, _⟩ := maybeAppend_ok heq
    have hst2p : st2.stats.processedFiles = 0 := by simp [e1, initStats]
    have hst2s : st2.stats.successfulFiles = 0 := by simp [e1, initStats]
    have hst2f : st2.stats.failedFiles = 0 := by simp [e1, initStats]
    have hst2t : st2.stats.totalFiles = env.files.length := by
      simp [e1, initStats]
    have hst2i : st2.iterationStats = [] := by simp [e2]
    have hloop := loopRun_inv env env.logCreated env.files 0 st2
      (by rw [hst2p, hst2s, hst2f])
      (by rw [hst2p, hst2t]; omega)
      (by rw [hst2i]; simp)
    split
    next stL e heq2 =>
      rw [heq2] at hloop
      exact ⟨hloop.1, hloop.2⟩
    next stL heq2 =>
      rw [heq2] at hloop
      simp only at hloop
      split
      next e heq3 =>
        refine ⟨by simpa using hloop.1, ?_, ?_⟩
        · simpa [statsInv] using hloop.2.1
        · simpa [statsInv] using hloop.2.2
      next stF heq3 =>
        obtain ⟨f1, f2, _, _, _, _⟩ := endAppends_ok heq3
        have hf1 : stF.stats.processedFiles = stL.stats.processedFiles := by
          simp [f1]
        have hf2 : stF.stats.successfulFiles = stL.stats.successfulFiles := by
          simp [f1]
        have hf3 : stF.stats.failedFiles = stL.stats.failedFiles := by
          simp [f1]
        have hf4 : stF.stats.totalFiles = stL.stats.totalFiles := by
          simp [f1]
        have hf5 : stF.iterationStats = stL.iterationStats := by
          simp [f2]
        refine ⟨?_, ?_, ?_⟩
        · intro s hs
          simp only [hf5] at hs
          exact hloop.1 s hs
        · show stF.stats.processedFiles
            = stF.stats.successfulFiles + stF.stats.failedFiles
          rw [hf1, hf2, hf3]
          exact hloop.2.1
        · show stF.stats.processedFiles ≤ stF.stats.totalFiles
          rw [hf1, hf4]
          exact hloop.2.2

lemma appendStep_error {env : RunEnv} {b : LogBlock} {st : MState} {e : RunError}
    (heq : appendStep env b st = .error e) : ∃ n, env.appendOk n = false := by
  unfold appendStep at heq
  split at heq
  · cases heq
  · next hcond => exact ⟨st.appendCalls, by simpa using hcond⟩

lemma endAppends_error {env : RunEnv} {st : MState} {e : RunError}
    (heq : endAppends env st = .error e) : ∃ n, env.appendOk n = false := by
  unfold endAppends at heq
  split at heq
  · cases happ : appendStep env (.hookRun .afterBatch) st with
    | error e2 => exact appendStep_error happ
    | ok stM =>
      rw [happ] at heq
      simp only [Except.bind] at heq
      exact appendStep_error heq
  · cases heq

lemma maybeAppend_error {env : RunEnv} {b : LogBlock} {st : MState} {e : RunError}
    (heq : maybeAppend env b st = .error e) : ∃ n, env.appendOk n = false := by
  unfold maybeAppend at heq
  split at heq
  · exact appendStep_error heq
  · cases heq

/-- Claim C9 (implicit): whenever the `onError` hooks are invoked during
a run, the statistics snapshot they observe has `failedFiles` and
`errorCount` already incremented for the file that just failed while
`processedFiles` has not been incremented yet, so
`processedFiles = successfulFiles + failedFiles - 1` at that observation
point (stated additively to avoid natural-number subtraction). -/
theorem runBatch_onError_observation (env : RunEnv) :
    ∀ q ∈ (runBatch env).trace.hookRuns, q.1 = HookPoint.onError →
      q.2.processedFiles + 1 = q.2.successfulFiles + q.2.failedFiles ∧
      1 ≤ q.2.failedFiles ∧ 1 ≤ q.2.errorCount := by
  intro q hq hqe
  rw [runBatch] at hq
  by_cases h1 : (!env.clineInstalled) = true
  · rw [if_pos h1] at hq; simp [RunTrace.hookRuns] at hq
  rw [if_neg h1] at hq
  by_cases h2 : (!env.clineApiAvailable) = true
  · rw [if_pos h2] at hq; simp [RunTrace.hookRuns] at hq
  rw [if_neg h2] at hq
  by_cases h3 : env.files.isEmpty = true
  · rw [if_pos h3] at hq; simp [RunTrace.hookRuns] at hq
  rw [if_neg h3] at hq
  by_cases h4 : (!env.taskGiven) = true
  · rw [if_pos h4] at hq; simp [RunTrace.hookRuns] at hq
  rw [if_neg h4] at hq
  dsimp only at hq
  split at hq
  next e heq =>
    simp [initStats] at hq
    rw [hq] at hqe
    cases hqe
  next st2 heq =>
    obtain ⟨e1, _, e3, _, _⟩ := maybeAppend_ok heq
    have hst2hooks : ∀ q2 ∈ st2.trace.hookRuns, q2.1 ≠ HookPoint.onError := by
      intro q2 hq2
      rw [e3] at hq2
      simp at hq2
      rw [hq2]
      simp
    have hst2inv : st2.stats.processedFiles
        = st2.stats.successfulFiles + st2.stats.failedFiles := by
      simp [e1, initStats]
    have honerr := loopRun_onError env env.logCreated env.files 0 st2 hst2inv
    split at hq
    next stL e heq2 =>
      rw [heq2] at honerr
      rcases honerr q hq hqe with hin | hfacts
      · exact absurd hqe (hst2hooks q hin)
      · exact hfacts
    next stL heq2 =>
      rw [heq2] at honerr
      simp only at honerr
      split at hq
      next e heq3 =>
        simp only [RunResult.trace] at hq
        rw [runHooksStep_hookRuns, refreshModified_trace] at hq
        rcases List.mem_append.mp hq with hin | hone
        · rcases honerr q hin hqe with hin2 | hfacts
          · exact absurd hqe (hst2hooks q hin2)
          · exact hfacts
        · rw [List.mem_singleton.mp hone] at hqe
          cases hqe
      next stF heq3 =>
        obtain ⟨_, _, f3, _, _, _⟩ := endAppends_ok heq3
        simp only [RunResult.trace] at hq
        rw [f3, runHooksStep_hookRuns, refreshModified_trace] at hq
        rcases List.mem_append.mp hq with hin | hone
        · rcases honerr q hin hqe with hin2 | hfacts
          · exact absurd hqe (hst2hooks q hin2)
          · exact hfacts
        · rw [List.mem_singleton.mp hone] at hqe
          cases hqe

/-- Claim C3 (amended): when log-file creation fails, the handle is null,
no log append or message fetch is attempted, and the run always reaches
the run-end steps and completes, regardless of per-file task failures,
hook failures, git failures and cancellation; `AgentUnavailable` is the
only pre-run failure. -/
theorem runBatch_no_log_completes (env : RunEnv)
    (h1 : env.clineInstalled = true) (h2 : env.clineApiAvailable = true)
    (h3 : env.files ≠ []) (h4 : env.taskGiven = true)
    (h5 : env.logCreated = false) :
    (runBatch env).outcome = Outcome.completed := by
  rw [runBatch, if_neg (by simp [h1]), if_neg (by simp [h2]),
    if_neg (by simpa [List.isEmpty_iff] using h3), if_neg (by simp [h4])]
  dsimp only
  split
  next e heq =>
    unfold maybeAppend at heq
    rw [h5] at heq
    simp at heq
  next st2 heq =>
    have hok := loopRun_noLog_ok env env.files 0 st2
    split
    next stL e heq2 =>
      rw [h5] at heq2
      rw [heq2] at hok
      simp at hok
    next stL heq2 =>
      split
      next e heq3 =>
        unfold endAppends at heq3
        rw [h5] at heq3
        simp at heq3
      next stF heq3 => rfl

/-- Claim C5: a run whose agent never reaches a terminal status within
the wait budget still returns successfully from the driver (`ok true`
records the logged timeout); the driver fails only when an
agent-integration call itself throws; and the orchestrator counts such
stuck files as successful and proceeds through every file. -/
theorem processFileWithCline_timeout_success :
    (∀ a : AgentEnv, a.submitOk = true → a.confirmOk = true →
      (∀ k, a.status k = some TaskStatus.active) →
      processFileWithCline a = Except.ok true) ∧
    (∀ (a : AgentEnv) (e : TaskError), processFileWithCline a = .error e →
      a.submitOk = false ∨ a.confirmOk = false ∨
        ∃ j, a.status j = Option.none) ∧
    (∀ env : RunEnv,
      env.clineInstalled = true → env.clineApiAvailable = true →
      env.files ≠ [] → env.taskGiven = true →
      (∀ n, env.appendOk n = true) → (∀ n, env.messagesOk n = true) →
      (∀ j, env.cancelAt j = false) →
      (∀ j k, (env.agent j).submitOk = true ∧ (env.agent j).confirmOk = true ∧
        (env.agent j).status k = some TaskStatus.active) →
      (runBatch env).outcome = Outcome.completed ∧
      (runBatch env).stats.successfulFiles = env.files.length ∧
      (runBatch env).stats.processedFiles = env.files.length ∧
      (runBatch env).stats.failedFiles = 0) := by
  have hstuck : ∀ a : AgentEnv, a.submitOk = true → a.confirmOk = true →
      (∀ k, a.status k = some TaskStatus.active) →
      processFileWithCline a = Except.ok true := by
    intro a hs hc hst
    unfold processFileWithCline
    rw [hs, hc]
    simp only [Bool.not_true, Bool.false_eq_true, if_false]
    exact pollLoop_stuck hst numPolls 0
  refine ⟨hstuck, ?_, ?_⟩
  · intro a e herr
    unfold processFileWithCline at herr
    by_cases hs : a.submitOk = true
    · rw [hs] at herr
      simp only [Bool.not_true, Bool.false_eq_true, if_false] at herr
      by_cases hc : a.confirmOk = true
      · rw [hc] at herr
        simp only [Bool.not_true, Bool.false_eq_true, if_false] at herr
        exact Or.inr (Or.inr (pollLoop_error numPolls 0 e herr))
      · exact Or.inr (Or.inl (by simpa using hc))
    · exact Or.inl (by simpa using hs)
  · intro env h1 h2 h3 h4 hap hmsg hnc hagent
    have hag : ∀ j, ∃ b, processFileWithCline (env.agent j) = .ok b :=
      fun j => ⟨true, hstuck (env.agent j) (hagent j 0).1 (hagent j 0).2.1
        (fun k => (hagent j k).2.2)⟩
    have hloop := loopRun_all_success env env.logCreated hap hmsg hnc hag
      env.files 0
    rw [runBatch, if_neg (by simp [h1]), if_neg (by simp [h2]),
      if_neg (by simpa [List.isEmpty_iff] using h3), if_neg (by simp [h4])]
    dsimp only
    split
    next e heq =>
      obtain ⟨n, hn⟩ := maybeAppend_error heq
      rw [hap n] at hn
      cases hn
    next st2 heq =>
      obtain ⟨e1, _, _, _, _⟩ := maybeAppend_ok heq
      have hst2p : st2.stats.processedFiles = 0 := by simp [e1, initStats]
      have hst2s : st2.stats.successfulFiles = 0 := by simp [e1, initStats]
      have hst2f : st2.stats.failedFiles = 0 := by simp [e1, initStats]
      obtain ⟨c1, c2, c3, c4, _⟩ := hloop st2
      split
      next stL e heq2 =>
        rw [heq2] at c1
        simp at c1
      next stL heq2 =>
        rw [heq2] at c2 c3 c4
        simp only at c2 c3 c4
        split
        next e heq3 =>
          obtain ⟨n, hn⟩ := endAppends_error heq3
          rw [hap n] at hn
          cases hn
        next stF heq3 =>
          obtain ⟨f1, _, _, _, _, _⟩ := endAppends_ok heq3
          have hfS : stF.stats.successfulFiles = stL.stats.successfulFiles := by
            simp [f1]
          have hfP : stF.stats.processedFiles = stL.stats.processedFiles := by
            simp [f1]
          have hfF : stF.stats.failedFiles = stL.stats.failedFiles := by
            simp [f1]
          refine ⟨rfl, ?_, ?_, ?_⟩
          · show stF.stats.successfulFiles = env.files.length
            omega
          · show stF.stats.processedFiles = env.files.length
            omega
          · show stF.stats.failedFiles = 0
            omega

/-- Claim C6: if cancellation is first requested at loop index `k < N`,
the check at the top of each iteration stops the loop after exactly `k`
completed files: the run completes with `processedFiles = k` and exactly
`k` agent invocations — the remaining `N - k` files are never submitted
to the agent. -/
theorem runBatch_cancellation_counts (env : RunEnv) (k : Nat)
    (h1 : env.clineInstalled = true) (h2 : env.clineApiAvailable = true)
    (h4 : env.taskGiven = true)
    (hap : ∀ n, env.appendOk n = true) (hmsg : ∀ n, env.messagesOk n = true)
    (hk : k < env.files.length)
    (hbefore : ∀ j, j < k → env.cancelAt j = false)
    (hck : env.cancelAt k = true) :
    (runBatch env).outcome = Outcome.completed ∧
    (runBatch env).stats.processedFiles = k ∧
    (runBatch env).trace.agentInvocations = k := by
  have h3 : env.files ≠ [] := by
    intro hnil
    rw [hnil] at hk
    simp at hk
  have hloop := loopRun_cancel_count env env.logCreated hap hmsg env.files 0 k
  rw [runBatch, if_neg (by simp [h1]), if_neg (by simp [h2]),
    if_neg (by simpa [List.isEmpty_iff] using h3), if_neg (by simp [h4])]
  dsimp only
  split
  next e heq =>
    obtain ⟨n, hn⟩ := maybeAppend_error heq
    rw [hap n] at hn
    cases hn
  next st2 heq =>
    obtain ⟨e1, _, _, e4, _⟩ := maybeAppend_ok heq
    have hst2p : st2.stats.processedFiles = 0 := by simp [e1, initStats]
    have hst2a : st2.trace.agentInvocations = 0 := by simp [e4]
    obtain ⟨c1, c2, c3⟩ := hloop st2 (by omega) (by omega)
      (fun j _ hj => hbefore j hj) hck
    split
    next stL e heq2 =>
      rw [heq2] at c1
      simp at c1
    next stL heq2 =>
      rw [heq2] at c2 c3
      simp only at c2 c3
      split
      next e heq3 =>
        obtain ⟨n, hn⟩ := endAppends_error heq3
        rw [hap n] at hn
        cases hn
      next stF heq3 =>
        obtain ⟨f1, _, _, f4, _, _⟩ := endAppends_ok heq3
        have hfP : stF.stats.processedFiles = stL.stats.processedFiles := by
          simp [f1]
        have hfA : stF.trace.agentInvocations = stL.trace.agentInvocations := by
          simp [f4]
        refine ⟨rfl, ?_, ?_⟩
        · show stF.stats.processedFiles = k
          omega
        · show stF.trace.agentInvocations = k
          omega

/-- Claim C10 (implicit): whether or not cancellation cut the loop short,
a run that reaches the end of the loop performs the full completion
sequence — `endTime` is set, the `afterBatch` hooks run last, the
`afterBatch` hook block and the summary block close the log, and the
dashboard is notified with the final statistics. -/
theorem runBatch_completion_sequence (env : RunEnv)
    (h1 : env.clineInstalled = true) (h2 : env.clineApiAvailable = true)
    (h3 : env.files ≠ []) (h4 : env.taskGiven = true)
    (hap : ∀ n, env.appendOk n = true) (hmsg : ∀ n, env.messagesOk n = true)
    (hlog : env.logCreated = true) :
    (runBatch env).outcome = Outcome.completed ∧
    (runBatch env).stats.endTime = some env.endTimeVal ∧
    (∃ s, (runBatch env).trace.hookRuns.getLast?
        = some (HookPoint.afterBatch, s)) ∧
    (∃ l, (runBatch env).trace.logBlocks
        = l ++ [LogBlock.hookRun HookPoint.afterBatch, LogBlock.summary]) ∧
    (runBatch env).trace.dashboard = some (runBatch env).stats := by
  have hlok := loopRun_ok_of_external_ok env env.logCreated hap hmsg env.files 0
  rw [runBatch, if_neg (by simp [h1]), if_neg (by simp [h2]),
    if_neg (by simpa [List.isEmpty_iff] using h3), if_neg (by simp [h4])]
  dsimp only
  split
  next e heq =>
    obtain ⟨n, hn⟩ := maybeAppend_error heq
    rw [hap n] at hn
    cases hn
  next st2 heq =>
    split
    next stL e heq2 =>
      have := hlok st2
      rw [heq2] at this
      simp at this
    next stL heq2 =>
      split
      next e heq3 =>
        obtain ⟨n, hn⟩ := endAppends_error heq3
        rw [hap n] at hn
        cases hn
      next stF heq3 =>
        obtain ⟨f1, _, f3, _, _, f6⟩ := endAppends_ok heq3
        have hfE : stF.stats.endTime = some env.endTimeVal := by
          simp [f1]
        have hfH : ∃ s, stF.trace.hookRuns.getLast?
            = some (HookPoint.afterBatch, s) := by
          rw [f3, runHooksStep_hookRuns]
          exact ⟨_, List.getLast?_concat _⟩
        have hfL : ∃ l, stF.trace.logBlocks
            = l ++ [LogBlock.hookRun HookPoint.afterBatch, LogBlock.summary] :=
          ⟨_, f6 hlog⟩
        exact ⟨rfl, hfE, hfH, hfL, rfl⟩

/-! ### Concrete inputs for the claim-level results -/

/-- The all-zero statistics snapshot. -/
def statsZero : BatchProcessingStats :=
  { totalFiles := 0, processedFiles := 0, successfulFiles := 0, failedFiles := 0,
    modifiedFiles := 0, errorCount := 0, startTime := 0, endTime := Option.none }

/-- A snapshot with five selected files and no errors. -/
def statsFive : BatchProcessingStats :=
  { totalFiles := 5, processedFiles := 0, successfulFiles := 0, failedFiles := 0,
    modifiedFiles := 0, errorCount := 0, startTime := 0, endTime := Option.none }

/-- An agent that reports `completed` at the first status poll. -/
def agentDone : AgentEnv :=
  { submitOk := true, confirmOk := true,
    status := fun _ => some TaskStatus.completed }

/-- An agent whose task submission throws. -/
def agentSubmitFails : AgentEnv :=
  { submitOk := false, confirmOk := true,
    status := fun _ => some TaskStatus.completed }

/-- Two files, a live log file, and an append oracle that accepts only
the very first write: the header append of `beforeBatch` succeeds and
the first per-file task-completion append rejects. -/
def envC3x : RunEnv :=
  { clineInstalled := true, clineApiAvailable := true, files := [0, 1],
    taskGiven := true, hooks := [], gitAvailable := false,
    gitCount := fun _ => Option.none, logCreated := true,
    appendOk := fun n => n == 0, messagesOk := fun _ => true,
    agent := fun _ => agentDone, cancelAt := fun _ => false,
    startTimeVal := 0, endTimeVal := 0 }

/-- One file, no log file, and every other oracle hostile: the agent
submission throws, git probing fails, appends and message fetches would
reject if ever attempted. -/
def envC3w : RunEnv :=
  { clineInstalled := true, clineApiAvailable := true, files := [0],
    taskGiven := true, hooks := [], gitAvailable := true,
    gitCount := fun _ => Option.none, logCreated := false,
    appendOk := fun _ => false, messagesOk := fun _ => false,
    agent := fun _ => agentSubmitFails, cancelAt := fun _ => false,
    startTimeVal := 0, endTimeVal := 0 }

/-- One file whose task submission throws, no log file. -/
def envC9 : RunEnv :=
  { clineInstalled := true, clineApiAvailable := true, files := [0],
    taskGiven := true, hooks := [], gitAvailable := false,
    gitCount := fun _ => Option.none, logCreated := false,
    appendOk := fun _ => true, messagesOk := fun _ => true,
    agent := fun _ => agentSubmitFails, cancelAt := fun _ => false,
    startTimeVal := 0, endTimeVal := 0 }

/-- The snapshot the `onError` hooks of `envC9` observe. -/
def statsErr : BatchProcessingStats :=
  { totalFiles := 1, processedFiles := 0, successfulFiles := 0, failedFiles := 1,
    modifiedFiles := 0, errorCount := 1, startTime := 0, endTime := Option.none }

/-- Three files with cancellation first requested at loop index 1. -/
def envC6w : RunEnv :=
  { clineInstalled := true, clineApiAvailable := true, files := [0, 1, 2],
    taskGiven := true, hooks := [], gitAvailable := false,
    gitCount := fun _ => Option.none, logCreated := true,
    appendOk := fun _ => true, messagesOk := fun _ => true,
    agent := fun _ => agentDone, cancelAt := fun n => decide (1 ≤ n),
    startTimeVal := 0, endTimeVal := 0 }

/-- Two files, a live log, and cancellation after the first file. -/
def envC10w : RunEnv :=
  { clineInstalled := true, clineApiAvailable := true, files := [0, 1],
    taskGiven := true, hooks := [], gitAvailable := false,
    gitCount := fun _ => Option.none, logCreated := true,
    appendOk := fun _ => true, messagesOk := fun _ => true,
    agent := fun _ => agentDone, cancelAt := fun n => decide (1 ≤ n),
    startTimeVal := 0, endTimeVal := 9 }

/-- The two-clause conjunction of the spec's worked example. -/
def csW : List ClauseSpec :=
  [{ var := "totalFiles".data, op := CompOp.ge, num := 5 },
   { var := "errorCount".data, op := CompOp.eq, num := 0 }]

/-! ### Claim C1 -/

/-- Claim C1 counterexample: the non-empty condition `"foo"` has no
recognized operator, yet `evaluateCondition` returns `true`, not the
fail-closed `false` the claim requires. -/
theorem evaluateCondition_malformed_true :
    jsTrim ("foo".data) ≠ [] ∧ clauseHasOp (jsTrim ("foo".data)) = false ∧
    evaluateCondition ("foo".data) statsZero = true := by decide

/-- Claim C1 (amended): a clause containing none of the five operator
substrings falls through the whole `if`/`else if` chain and is silently
ignored, so a condition all of whose `&&`-separated clauses are
operator-free evaluates to `true` (fail-open), and `evaluateCondition`
is a total function that never throws. -/
theorem evaluateCondition_operator_free_ignored (cond : List Char)
    (s : BatchProcessingStats)
    (h : ∀ cl ∈ (splitOnSub andStr cond).map jsTrim, clauseHasOp cl = false) :
    evaluateCondition cond s = true := by
  rw [evaluateCondition]
  by_cases ht : jsTrim cond = []
  · rw [if_pos ht]
  · rw [if_neg ht]
    exact List.all_eq_true.mpr
      (fun cl hcl => clausePasses_of_no_op (h cl hcl) s)

/-- Claim C1 witness: both clauses of `"foo && bar"` are operator-free,
and the condition evaluates to `true`. -/
theorem evaluateCondition_operator_free_ignored_witness :
    (∀ cl ∈ (splitOnSub andStr ("foo && bar".data)).map jsTrim,
      clauseHasOp cl = false) ∧
    evaluateCondition ("foo && bar".data) statsZero = true :=
  ⟨by decide,
   evaluateCondition_operator_free_ignored ("foo && bar".data) statsZero
     (by decide)⟩

/-! ### Claim C4 -/

/-- Claim C4: a conjunction of well-formed clauses
`<variable> <op> <integer>` joined by `&&` evaluates to `true` exactly
when every clause's integer comparison holds against the statistics
snapshot, with the operator matched in the priority order
`>=, <=, >, <, ==` and an unrecognized variable resolving to `0`
(`clauseHolds` applies `getVariableValue`, which implements exactly that
resolution). -/
theorem evaluateCondition_wellformed (s : BatchProcessingStats)
    (cs : List ClauseSpec) (hne : cs ≠ [])
    (hall : ∀ c ∈ cs, goodVar c.var) :
    evaluateCondition (renderCond cs) s = cs.all (fun c => clauseHolds c s) :=
  evaluateCondition_renderCond s cs hne hall

/-- Claim C4 witness: `"totalFiles >= 5 && errorCount == 0"` against a
snapshot with `totalFiles = 5` and `errorCount = 0` evaluates to
`true`. -/
theorem evaluateCondition_wellformed_witness :
    csW ≠ [] ∧ (∀ c ∈ csW, goodVar c.var) ∧
    renderCond csW = "totalFiles >= 5 && errorCount == 0".data ∧
    evaluateCondition (renderCond csW) statsFive = true :=
  ⟨by simp [csW], by decide, by decide,
   (evaluateCondition_wellformed statsFive csW (by simp [csW])
     (by decide)).trans (by decide)⟩

/-! ### Claim C7 -/

/-- Claim C7 counterexample: the label in the combined instruction
string is the literal `詳細:`, not `Details:`. -/
theorem combineTask_label_counterexample :
    combineTask (loadTaskConfigFields
        { taskSummary := "S", taskDescription := ["i1", "i2"] })
      = "S\n\n詳細:\n1. i1\n2. i2" ∧
    combineTask (loadTaskConfigFields
        { taskSummary := "S", taskDescription := ["i1", "i2"] })
      ≠ "S\n\nDetails:\n1. i1\n2. i2" := by decide

/-- Claim C7 (amended): for every structured task document the task
intent is the trimmed summary, a blank line, the literal label `詳細:`,
then the trimmed items numbered from 1, one per line. -/
theorem combineTask_label (cfg : TaskConfig) :
    combineTask (loadTaskConfigFields cfg)
      = jsTrimStr cfg.taskSummary ++ "\n\n詳細:\n"
        ++ numberedLines 1 (cfg.taskDescription.map jsTrimStr) := by
  rw [combineTask_eq]
  rfl

/-! ### Claim C8 -/

/-- Claim C8 counterexample: a dotfile selected directly by the user is
kept (only directory recursion skips dot-prefixed names), and the
workspace-root filter is a plain string-prefix test, so a sibling path
such as `/wander/x` outside root `/w` passes it. -/
theorem selectFiles_counterexample :
    selectFilesAndFolders "/w" [("/w/.env", SelNode.file)] = ["/w/.env"] ∧
    hasDotComponent "/w/.env" = true ∧
    selectFilesAndFolders "/w" [("/wander/x", SelNode.file)] = ["/wander/x"] ∧
    jsStartsWith "/wander/x" ("/w" ++ "/") = false := by decide

/-- Claim C8 (amended): every path returned by the selection passes the
string-prefix test against the workspace path (weaker than directory
containment), and every path produced by directory recursion extends the
selected directory by a non-empty chain of components none of which is
dot-prefixed; directly selected files bypass the dotfile skip. -/
theorem selectFiles_guarantees :
    (∀ (root : String) (selected : List (String × SelNode)),
      ∀ p ∈ selectFilesAndFolders root selected,
        jsStartsWith p root = true) ∧
    (∀ (t : FsTree) (p : String), ∀ out ∈ getAllFilesInDirectory p t,
      ∃ comps, comps ≠ [] ∧ (∀ c ∈ comps, isDotName c = false) ∧
        out = joinPathList p comps) :=
  ⟨fun root selected => selectFilesAndFolders_prefix root selected,
   fun t p => getAllFilesInDirectory_shape t p⟩

/-! ### Claim C3: counterexample and witness -/

/-- Claim C3 counterexample: with a live log file and an append oracle
that rejects the first per-file task-completion write, the run aborts
mid-loop after one of its two files — the unguarded `appendLogSection`
propagates the rejection, so the second file is never processed, the
run-end steps never run, and the dashboard is never notified. -/
theorem runBatch_append_abort :
    (runBatch envC3x).outcome = Outcome.aborted RunError.appendFailed ∧
    envC3x.files.length = 2 ∧
    (runBatch envC3x).trace.agentInvocations = 1 ∧
    (runBatch envC3x).stats.processedFiles = 1 ∧
    (runBatch envC3x).trace.dashboard = Option.none := by decide

/-- Claim C3 witness: a one-file run with a null log handle completes
even though the agent submission throws, git probing fails, and the
append and message oracles would reject. -/
theorem runBatch_no_log_completes_witness :
    envC3w.clineInstalled = true ∧ envC3w.clineApiAvailable = true ∧
    envC3w.files ≠ [] ∧ envC3w.taskGiven = true ∧
    envC3w.logCreated = false ∧
    (runBatch envC3w).outcome = Outcome.completed :=
  ⟨rfl, rfl, by decide, rfl, rfl,
   runBatch_no_log_completes envC3w rfl rfl (by decide) rfl rfl⟩

/-! ### Claim C9 witness -/

/-- Claim C9 witness: in the run of `envC9` the `onError` hooks observe
the snapshot `statsErr`, which has `failedFiles` and `errorCount`
already incremented while `processedFiles` is still `0`. -/
theorem runBatch_onError_observation_witness :
    (HookPoint.onError, statsErr) ∈ (runBatch envC9).trace.hookRuns ∧
    (statsErr.processedFiles + 1
        = statsErr.successfulFiles + statsErr.failedFiles ∧
      1 ≤ statsErr.failedFiles ∧ 1 ≤ statsErr.errorCount) :=
  ⟨by decide,
   runBatch_onError_observation envC9 (HookPoint.onError, statsErr)
     (by decide) rfl⟩

/-! ### Claim C6 witness -/

/-- Claim C6 witness: in a three-file run with cancellation first
requested at loop index 1, the run completes with exactly one processed
file and one agent invocation. -/
theorem runBatch_cancellation_counts_witness :
    (1 < envC6w.files.length ∧ (∀ j, j < 1 → envC6w.cancelAt j = false) ∧
      envC6w.cancelAt 1 = true) ∧
    ((runBatch envC6w).outcome = Outcome.completed ∧
     (runBatch envC6w).stats.processedFiles = 1 ∧
     (runBatch envC6w).trace.agentInvocations = 1) :=
  ⟨⟨by decide, by decide, by decide⟩,
   runBatch_cancellation_counts envC6w 1 rfl rfl rfl (fun _ => rfl)
     (fun _ => rfl) (by decide) (by decide) (by decide)⟩

/-! ### Claim C10 witness -/

/-- Claim C10 witness: a two-file run cancelled after its first file
still performs the full completion sequence — `endTime` set, the
`afterBatch` hooks recorded last, the `afterBatch` and summary blocks
closing the log, and the dashboard notified with the final
statistics. -/
theorem runBatch_completion_sequence_witness :
    envC10w.logCreated = true ∧
    ((runBatch envC10w).outcome = Outcome.completed ∧
     (runBatch envC10w).stats.endTime = some envC10w.endTimeVal ∧
     (∃ s, (runBatch envC10w).trace.hookRuns.getLast?
        = some (HookPoint.afterBatch, s)) ∧
     (∃ l, (runBatch envC10w).trace.logBlocks
        = l ++ [LogBlock.hookRun HookPoint.afterBatch, LogBlock.summary]) ∧
     (runBatch envC10w).trace.dashboard = some (runBatch envC10w).stats) :=
  ⟨rfl,
   runBatch_completion_sequence envC10w rfl rfl (by decide) rfl (fun _ => rfl)
     (fun _ => rfl) rfl⟩

end ClineBatch
